import Mathlib

/-!
Verification of the projective-transform module (projective.c) of the
leptonica image library.  Coordinates and transform coefficients are
embedded as exact rationals (the C code computes on l_float32), pixel
values as natural numbers read and written at the pixel bit width, and
raster images as a row-major list of pixel values.  Functions of the
surrounding library that are only declared here (gaussjordan, the pix
and colormap accessors, colormap removal, depth conversion and the
bilinear pixel interpolators) are modelled from the specification, as
marked on each definition.
-/

/-- Truncation of a rational toward zero, the effect of the C cast
of a floating value to l_int32. -/
def ratTrunc (q : ℚ) : ℤ := if 0 ≤ q then ⌊q⌋ else -⌊-q⌋

/-- Border selector L_BRING_IN_WHITE of the library headers. -/
def L_BRING_IN_WHITE : Nat := 1

/-- Border selector L_BRING_IN_BLACK of the library headers. -/
def L_BRING_IN_BLACK : Nat := 2

/-- Translation of projectiveXformSampledPt (projective.c): the projective
map at an integer point, rounded by adding one half and truncating. -/
def projectiveXformSampledPt (vc : List ℚ) (x y : ℤ) : ℤ × ℤ :=
  let factor : ℚ := 1 / (vc.getD 6 0 * x + vc.getD 7 0 * y + 1)
  (ratTrunc (factor * (vc.getD 0 0 * x + vc.getD 1 0 * y + vc.getD 2 0) + 1/2),
   ratTrunc (factor * (vc.getD 3 0 * x + vc.getD 4 0 * y + vc.getD 5 0) + 1/2))

/-- Translation of projectiveXformPt (projective.c): the projective map
at an integer point, kept in floating (here exact rational) form. -/
def projectiveXformPt (vc : List ℚ) (x y : ℤ) : ℚ × ℚ :=
  let factor : ℚ := 1 / (vc.getD 6 0 * x + vc.getD 7 0 * y + 1)
  (factor * (vc.getD 0 0 * x + vc.getD 1 0 * y + vc.getD 2 0),
   factor * (vc.getD 3 0 * x + vc.getD 4 0 * y + vc.getD 5 0))

/-- Modelled from the spec: pivot search of the Gauss-Jordan elimination
subroutine (gaussjordan, not part of this module).  Finds the first of
the candidate rows whose entry in column k is nonzero. -/
def findPiv (m : List (List ℚ)) (k : Nat) : List Nat → Option Nat
  | [] => none
  | r :: rs => if (m.getD r []).getD k 0 = 0 then findPiv m k rs else some r

/-- Modelled from the spec: normalization of the pivot row by its pivot
entry, part of the Gauss-Jordan elimination subroutine. -/
def normRow (k : Nat) (row : List ℚ) : List ℚ :=
  row.map (fun v => v / row.getD k 0)

/-- Modelled from the spec: elimination of column k from one row using
the normalized pivot row, part of the Gauss-Jordan subroutine. -/
def elimRow (piv : List ℚ) (k : Nat) (row : List ℚ) : List ℚ :=
  List.zipWith (fun v p => v - row.getD k 0 * p) row piv

/-- Modelled from the spec: one column step of Gauss-Jordan elimination
on the augmented matrix; fails when every remaining row has a zero
entry in the pivot column (the singular case the spec calls
DegenerateSystem). -/
def gjStep (k : Nat) (m : List (List ℚ)) : Option (List (List ℚ)) :=
  match findPiv m k ((List.range m.length).drop k) with
  | none => none
  | some r =>
    let m1 := (m.set r (m.getD k [])).set k (m.getD r [])
    let piv := normRow k (m1.getD k [])
    some ((List.range m.length).map (fun s =>
      if s = k then piv else elimRow piv k (m1.getD s [])))

/-- Modelled from the spec: the column loop of Gauss-Jordan elimination.
On failure the matrix reached so far is kept, mirroring the partially
eliminated in-place state the C subroutine leaves behind. -/
def gjRun (m : List (List ℚ)) : List Nat → Bool × List (List ℚ)
  | [] => (true, m)
  | k :: ks =>
    match gjStep k m with
    | none => (false, m)
    | some m2 => gjRun m2 ks

/-- Modelled from the spec: in-place Gauss-Jordan elimination of an 8x8
system (the external subroutine gaussjordan), returning the success flag
and the right-hand-side vector, which holds the solution on success. -/
def gaussjordan (a : List (List ℚ)) (b : List ℚ) : Bool × List ℚ :=
  let aug := List.zipWith (fun row v => row ++ [v]) a b
  let res := gjRun aug (List.range 8)
  (res.1, res.2.map (fun row => row.getD 8 0))

/-- Point-list accessor: the i-th point of a point list, as ptaGetPt
reads it in getProjectiveXformCoeffs. -/
def ptaGetD (pta : List (ℚ × ℚ)) (i : Nat) : ℚ × ℚ := pta.getD i (0, 0)

/-- Translation of the right-hand-side vector b built by
getProjectiveXformCoeffs (projective.c): the flattened coordinates of
the four transformed points. -/
def projVecB (ptad : List (ℚ × ℚ)) : List ℚ :=
  [(ptaGetD ptad 0).1, (ptaGetD ptad 0).2,
   (ptaGetD ptad 1).1, (ptaGetD ptad 1).2,
   (ptaGetD ptad 2).1, (ptaGetD ptad 2).2,
   (ptaGetD ptad 3).1, (ptaGetD ptad 3).2]

/-- Translation of the 8x8 matrix a built by getProjectiveXformCoeffs
(projective.c); entries not assigned by the C code are the zeros left
by CALLOC. -/
def projMatA (ptas ptad : List (ℚ × ℚ)) : List (List ℚ) :=
  let x1 := (ptaGetD ptas 0).1
  let y1 := (ptaGetD ptas 0).2
  let x2 := (ptaGetD ptas 1).1
  let y2 := (ptaGetD ptas 1).2
  let x3 := (ptaGetD ptas 2).1
  let y3 := (ptaGetD ptas 2).2
  let x4 := (ptaGetD ptas 3).1
  let y4 := (ptaGetD ptas 3).2
  let b := projVecB ptad
  [[x1, y1, 1, 0, 0, 0, -x1 * b.getD 0 0, -y1 * b.getD 0 0],
   [0, 0, 0, x1, y1, 1, -x1 * b.getD 1 0, -y1 * b.getD 1 0],
   [x2, y2, 1, 0, 0, 0, -x2 * b.getD 2 0, -y2 * b.getD 2 0],
   [0, 0, 0, x2, y2, 1, -x2 * b.getD 3 0, -y2 * b.getD 3 0],
   [x3, y3, 1, 0, 0, 0, -x3 * b.getD 4 0, -y3 * b.getD 4 0],
   [0, 0, 0, x3, y3, 1, -x3 * b.getD 5 0, -y3 * b.getD 5 0],
   [x4, y4, 1, 0, 0, 0, -x4 * b.getD 6 0, -y4 * b.getD 6 0],
   [0, 0, 0, x4, y4, 1, -x4 * b.getD 7 0, -y4 * b.getD 7 0]]

/-- Translation of getProjectiveXformCoeffs (projective.c).  The status
of the gaussjordan call is discarded by the C code, so once the argument
and allocation checks pass the function returns status 0 together with
whatever vector the elimination left in b. -/
def getProjectiveXformCoeffs (ptas ptad : List (ℚ × ℚ)) : Nat × List ℚ :=
  (0, (gaussjordan (projMatA ptas ptad) (projVecB ptad)).2)

/-- Raster image: width, height, bit depth, optional colormap (a list of
RGB entries) and the row-major list of pixel values, each read and
written at the pixel bit width. -/
structure Pix where
  w : Nat
  h : Nat
  d : Nat
  cmap : Option (List (Nat × Nat × Nat))
  data : List Nat
deriving DecidableEq

/-- Pixel read at the pixel bit width, as the GET_DATA accessors of the
library return a d-bit value. -/
def getPix (p : Pix) (x y : Nat) : Nat := p.data.getD (y * p.w + x) 0 % 2 ^ p.d

/-- Pixel write at the pixel bit width, as the SET_DATA accessors of the
library store a d-bit value. -/
def setPix (p : Pix) (x y : Nat) (v : Nat) : Pix :=
  { p with data := p.data.set (y * p.w + x) (v % 2 ^ p.d) }

/-- Modelled from the spec: pixCreateTemplate, allocation of a
destination image of the same geometry, depth and colormap as the
source, with a zeroed raster. -/
def pixCreateTemplate (p : Pix) : Pix :=
  { p with data := List.replicate (p.w * p.h) 0 }

/-- Modelled from the spec: pixClearAll, setting every pixel to 0. -/
def pixClearAll (p : Pix) : Pix :=
  { p with data := List.replicate (p.w * p.h) 0 }

/-- Modelled from the spec: pixSetAll, setting every pixel to all-1
bits. -/
def pixSetAll (p : Pix) : Pix :=
  { p with data := List.replicate (p.w * p.h) (2 ^ p.d - 1) }

/-- Modelled from the spec: pixSetAllArbitrary, setting every pixel to
the given value at the pixel bit width. -/
def pixSetAllArbitrary (p : Pix) (v : Nat) : Pix :=
  { p with data := List.replicate (p.w * p.h) (v % 2 ^ p.d) }

/-- Index of the first occurrence of an entry in a colormap. -/
def cmapIndexOf (e : Nat × Nat × Nat) : List (Nat × Nat × Nat) → Option Nat
  | [] => none
  | f :: t => if f = e then some 0 else (cmapIndexOf e t).map (· + 1)

/-- Modelled from the spec: pixcmapAddBlackOrWhite on a colormap value
(color 1 requests white, 0 black); returns the possibly extended
colormap and the index of the entry, adding the entry if absent. -/
def pixcmapAddBlackOrWhite (c : List (Nat × Nat × Nat)) (color : Nat) :
    List (Nat × Nat × Nat) × Nat :=
  let e := if color = 1 then (255, 255, 255) else (0, 0, 0)
  match cmapIndexOf e c with
  | some i => (c, i)
  | none => (c ++ [e], c.length)

/-- Translation of the destination pre-fill of pixProjectiveSampled
(projective.c): the destination canvas together with the source as it
stands afterwards (pixcmapAddBlackOrWhite mutates the colormap of the
source in place; the destination was created from the source before
that, so it carries the unextended colormap). -/
def samplePrefill (pixs : Pix) (incolor : Nat) : Pix × Pix :=
  match pixs.cmap with
  | some c =>
    let color := if incolor = L_BRING_IN_WHITE then 1 else 0
    let r := pixcmapAddBlackOrWhite c color
    (pixSetAllArbitrary (pixCreateTemplate pixs) r.2,
     { pixs with cmap := some r.1 })
  | none =>
    if (pixs.d = 1 ∧ incolor = L_BRING_IN_WHITE) ∨
        (1 < pixs.d ∧ incolor = L_BRING_IN_BLACK) then
      (pixClearAll (pixCreateTemplate pixs), pixs)
    else
      (pixSetAll (pixCreateTemplate pixs), pixs)

/-- Translation of the body of the inner loop of pixProjectiveSampled
(projective.c) for one destination pixel (j,i): map the point, skip it
when the source coordinate is out of bounds, otherwise transfer the
source pixel, where at depth 1 only a set source bit is written. -/
def samplePixel (pixs : Pix) (vc : List ℚ) (i j : Nat) (acc : Pix) : Pix :=
  let xy := projectiveXformSampledPt vc j i
  if xy.1 < 0 ∨ xy.2 < 0 ∨ (pixs.w : ℤ) ≤ xy.1 ∨ (pixs.h : ℤ) ≤ xy.2 then acc
  else if pixs.d = 1 then
    (if getPix pixs xy.1.toNat xy.2.toNat ≠ 0 then setPix acc j i 1 else acc)
  else if pixs.d = 8 then setPix acc j i (getPix pixs xy.1.toNat xy.2.toNat)
  else if pixs.d = 32 then setPix acc j i (getPix pixs xy.1.toNat xy.2.toNat)
  else if pixs.d = 2 then setPix acc j i (getPix pixs xy.1.toNat xy.2.toNat)
  else if pixs.d = 4 then setPix acc j i (getPix pixs xy.1.toNat xy.2.toNat)
  else acc

/-- Translation of one row of the destination scan of
pixProjectiveSampled (projective.c). -/
def sampleRow (pixs : Pix) (vc : List ℚ) (i : Nat) (acc : Pix) : Pix :=
  (List.range pixs.w).foldl (fun a j => samplePixel pixs vc i j a) acc

/-- Translation of the full destination scan of pixProjectiveSampled
(projective.c). -/
def samplePass (pixs : Pix) (vc : List ℚ) (acc : Pix) : Pix :=
  (List.range pixs.h).foldl (fun a i => sampleRow pixs vc i a) acc

/-- Translation of pixProjectiveSampled (projective.c).  The null-pointer
checks of the C code have no counterpart here; the incolor and depth
checks are kept.  The result pairs the destination with the source as
it stands after the call (its colormap may have been extended). -/
def pixProjectiveSampled (pixs : Pix) (vc : List ℚ) (incolor : Nat) :
    Option (Pix × Pix) :=
  if incolor ≠ L_BRING_IN_WHITE ∧ incolor ≠ L_BRING_IN_BLACK then none
  else if pixs.d ≠ 1 ∧ pixs.d ≠ 2 ∧ pixs.d ≠ 4 ∧ pixs.d ≠ 8 ∧ pixs.d ≠ 32 then none
  else
    let pr := samplePrefill pixs incolor
    some (samplePass pixs vc pr.1, pr.2)

/-- Translation of pixProjectiveSampledPta (projective.c): checks the
selector and the point counts, solves for the backward transform from
destination to source, and applies the sampled transform. -/
def pixProjectiveSampledPta (pixs : Pix) (ptad ptas : List (ℚ × ℚ))
    (incolor : Nat) : Option (Pix × Pix) :=
  if incolor ≠ L_BRING_IN_WHITE ∧ incolor ≠ L_BRING_IN_BLACK then none
  else if ptas.length ≠ 4 then none
  else if ptad.length ≠ 4 then none
  else pixProjectiveSampled pixs (getProjectiveXformCoeffs ptad ptas).2 incolor

/-- Modelled from the spec: pixClone; in this pure embedding a clone is
the image itself. -/
def pixClone (p : Pix) : Pix := p

/-- Colormap test used by colormap removal: whether some entry is not a
gray level. -/
def cmapHasColor : List (Nat × Nat × Nat) → Bool
  | [] => false
  | e :: t => if e.1 = e.2.1 ∧ e.2.1 = e.2.2 then cmapHasColor t else true

/-- Packing of an RGB triple into a 32-bit pixel with the low (alpha)
byte zero, per the channel packing convention of the library. -/
def rgbPack (e : Nat × Nat × Nat) : Nat :=
  e.1 * 2 ^ 24 + e.2.1 * 2 ^ 16 + e.2.2 * 2 ^ 8

/-- Modelled from the spec: pixRemoveColormap with
REMOVE_CMAP_BASED_ON_SRC, materializing true sample values: a colored
colormap yields a 32-bit color image, a gray one an 8-bit gray image,
and an image without colormap is returned as is. -/
def pixRemoveColormapBasedOnSrc (p : Pix) : Pix :=
  match p.cmap with
  | none => p
  | some c =>
    if cmapHasColor c then
      { w := p.w, h := p.h, d := 32, cmap := none,
        data := p.data.map (fun v => rgbPack (c.getD (v % 2 ^ p.d) (0, 0, 0))) }
    else
      { w := p.w, h := p.h, d := 8, cmap := none,
        data := p.data.map (fun v => (c.getD (v % 2 ^ p.d) (0, 0, 0)).1) }

/-- Modelled from the spec: pixConvertTo8 on an image without colormap,
promoting a sub-8-bit image to 8-bit grayscale by expanding the value
range; an 8-bit image passes through. -/
def pixConvertTo8 (p : Pix) : Pix :=
  if p.d = 8 then p
  else { w := p.w, h := p.h, d := 8, cmap := none,
         data := p.data.map (fun v => v % 2 ^ p.d * 255 / (2 ^ p.d - 1)) }

/-- Clamping of an interpolated value to one byte, per the spec of the
pixel reconstructor. -/
def clampByte (z : ℤ) : Nat := if z < 0 then 0 else if 255 < z then 255 else z.toNat

/-- Corner fetch of the bilinear blend: a real source pixel inside the
raster, the border value outside, per the spec of the pixel
reconstructor. -/
def cornerVal (p : Pix) (cx cy : ℤ) (border : Nat) : Nat :=
  if 0 ≤ cx ∧ cx < (p.w : ℤ) ∧ 0 ≤ cy ∧ cy < (p.h : ℤ) then
    getPix p cx.toNat cy.toNat
  else border

/-- Modelled from the spec: linearInterpolatePixelGray, the area-weighted
blend of the four corner pixels around a fractional source coordinate,
rounded to the nearest integer and clamped to one byte. -/
def linearInterpolatePixelGray (p : Pix) (x y : ℚ) (border : Nat) : Nat :=
  let x0 := ⌊x⌋
  let y0 := ⌊y⌋
  let dx := x - x0
  let dy := y - y0
  let v := (1 - dx) * (1 - dy) * (cornerVal p x0 y0 border : ℚ) +
    dx * (1 - dy) * (cornerVal p (x0 + 1) y0 border : ℚ) +
    (1 - dx) * dy * (cornerVal p x0 (y0 + 1) border : ℚ) +
    dx * dy * (cornerVal p (x0 + 1) (y0 + 1) border : ℚ)
  clampByte ⌊v + 1/2⌋

/-- Channel extraction from a 32-bit packed pixel: channel 0 is the high
byte. -/
def pixChannel (v k : Nat) : Nat := v / 2 ^ (8 * (3 - k)) % 256

/-- Modelled from the spec: one channel of linearInterpolatePixelColor,
blended like the gray case on the channel values. -/
def interpChannel (p : Pix) (x y : ℚ) (border k : Nat) : Nat :=
  let x0 := ⌊x⌋
  let y0 := ⌊y⌋
  let dx := x - x0
  let dy := y - y0
  let v := (1 - dx) * (1 - dy) * (pixChannel (cornerVal p x0 y0 border) k : ℚ) +
    dx * (1 - dy) * (pixChannel (cornerVal p (x0 + 1) y0 border) k : ℚ) +
    (1 - dx) * dy * (pixChannel (cornerVal p x0 (y0 + 1) border) k : ℚ) +
    dx * dy * (pixChannel (cornerVal p (x0 + 1) (y0 + 1) border) k : ℚ)
  clampByte ⌊v + 1/2⌋

/-- Modelled from the spec: linearInterpolatePixelColor, the four
channels blended independently and repacked. -/
def linearInterpolatePixelColor (p : Pix) (x y : ℚ) (border : Nat) : Nat :=
  interpChannel p x y border 0 * 2 ^ 24 + interpChannel p x y border 1 * 2 ^ 16 +
    interpChannel p x y border 2 * 2 ^ 8 + interpChannel p x y border 3

/-- Translation of the inner loop body of pixProjectiveGray
(projective.c) for one destination pixel. -/
def grayPixel (pixs : Pix) (vc : List ℚ) (grayval i j : Nat) (acc : Pix) : Pix :=
  let xy := projectiveXformPt vc j i
  setPix acc j i (linearInterpolatePixelGray pixs xy.1 xy.2 grayval)

/-- Translation of pixProjectiveGray (projective.c): 8-bit interpolated
pass over every destination pixel of a canvas pre-filled with the
border gray value. -/
def pixProjectiveGray (pixs : Pix) (vc : List ℚ) (grayval : Nat) : Option Pix :=
  if pixs.d ≠ 8 then none
  else
    some ((List.range pixs.h).foldl (fun a i =>
      (List.range pixs.w).foldl (fun a2 j => grayPixel pixs vc grayval i j a2) a)
      (pixSetAllArbitrary (pixCreateTemplate pixs) grayval))

/-- Translation of the inner loop body of pixProjectiveColor
(projective.c) for one destination pixel. -/
def colorPixel (pixs : Pix) (vc : List ℚ) (colorval i j : Nat) (acc : Pix) : Pix :=
  let xy := projectiveXformPt vc j i
  setPix acc j i (linearInterpolatePixelColor pixs xy.1 xy.2 colorval)

/-- Translation of pixProjectiveColor (projective.c): 32-bit interpolated
pass over every destination pixel of a canvas pre-filled with the
border color value. -/
def pixProjectiveColor (pixs : Pix) (vc : List ℚ) (colorval : Nat) : Option Pix :=
  if pixs.d ≠ 32 then none
  else
    some ((List.range pixs.h).foldl (fun a i =>
      (List.range pixs.w).foldl (fun a2 j => colorPixel pixs vc colorval i j a2) a)
      (pixSetAllArbitrary (pixCreateTemplate pixs) colorval))

/-- Translation of pixProjectivePtaGray (projective.c): point-driven
8-bit interpolated transform, solving for the backward transform from
destination to source.  The grayval parameter is one byte wide in C. -/
def pixProjectivePtaGray (pixs : Pix) (ptad ptas : List (ℚ × ℚ))
    (grayval : Nat) : Option Pix :=
  if pixs.d ≠ 8 then none
  else if ptas.length ≠ 4 then none
  else if ptad.length ≠ 4 then none
  else pixProjectiveGray pixs (getProjectiveXformCoeffs ptad ptas).2 grayval

/-- Translation of pixProjectivePtaColor (projective.c): point-driven
32-bit interpolated transform, solving for the backward transform from
destination to source. -/
def pixProjectivePtaColor (pixs : Pix) (ptad ptas : List (ℚ × ℚ))
    (colorval : Nat) : Option Pix :=
  if pixs.d ≠ 32 then none
  else if ptas.length ≠ 4 then none
  else if ptad.length ≠ 4 then none
  else pixProjectiveColor pixs (getProjectiveXformCoeffs ptad ptas).2 colorval

/-- Translation of pixProjectivePta (projective.c): validates the
selector and point counts, delegates depth-1 sources to the sampled
transform, and otherwise removes any colormap, promotes sub-8-bit
images to 8 bit, computes the concrete border value and dispatches to
the gray or color interpolated pass.  The pair keeps the source (which
the interpolated paths never modify) alongside the destination. -/
def pixProjectivePta (pixs : Pix) (ptad ptas : List (ℚ × ℚ))
    (incolor : Nat) : Option (Pix × Pix) :=
  if incolor ≠ L_BRING_IN_WHITE ∧ incolor ≠ L_BRING_IN_BLACK then none
  else if ptas.length ≠ 4 then none
  else if ptad.length ≠ 4 then none
  else if pixs.d = 1 then pixProjectiveSampledPta pixs ptad ptas incolor
  else
    let pixt1 := pixRemoveColormapBasedOnSrc pixs
    let pixt2 := if pixt1.d < 8 then pixConvertTo8 pixt1 else pixClone pixt1
    let colorval := if incolor = L_BRING_IN_WHITE then
      (if pixt2.d = 8 then 255 else 0xffffff00) else 0
    if pixt2.d = 8 then
      (pixProjectivePtaGray pixt2 ptad ptas (colorval % 256)).map (fun q => (q, pixs))
    else
      (pixProjectivePtaColor pixt2 ptad ptas colorval).map (fun q => (q, pixs))

/-- Translation of pixProjective (projective.c): delegates depth-1
sources to the sampled transform and otherwise normalizes the depth and
dispatches to the gray or color interpolated pass.  The C code does not
validate the incolor selector here: a value other than the two
selectors simply fails the L_BRING_IN_WHITE comparison and is treated
as black. -/
def pixProjective (pixs : Pix) (vc : List ℚ) (incolor : Nat) :
    Option (Pix × Pix) :=
  if pixs.d = 1 then pixProjectiveSampled pixs vc incolor
  else
    let pixt1 := pixRemoveColormapBasedOnSrc pixs
    let pixt2 := if pixt1.d < 8 then pixConvertTo8 pixt1 else pixClone pixt1
    let colorval := if incolor = L_BRING_IN_WHITE then
      (if pixt2.d = 8 then 255 else 0xffffff00) else 0
    if pixt2.d = 8 then
      (pixProjectiveGray pixt2 vc (colorval % 256)).map (fun q => (q, pixs))
    else
      (pixProjectiveColor pixt2 vc colorval).map (fun q => (q, pixs))

/-- Identity coefficient vector of the projective map. -/
def idProjVc : List ℚ := [1, 0, 0, 0, 1, 0, 0, 0]

/-- Corners of a 4x4 canvas, the canonical nondegenerate 4-point set. -/
def canvasCorners : List (ℚ × ℚ) := [(0, 0), (3, 0), (3, 3), (0, 3)]

/-- Per-pixel result of the sampled pass as the spec describes it:
out-of-bounds mapped coordinates keep the pre-filled value pre, a
depth-1 source writes only a set bit, and any other depth copies the
source pixel. -/
def samplePixelVal (pixs : Pix) (vc : List ℚ) (i j pre : Nat) : Nat :=
  let xy := projectiveXformSampledPt vc j i
  if xy.1 < 0 ∨ xy.2 < 0 ∨ (pixs.w : ℤ) ≤ xy.1 ∨ (pixs.h : ℤ) ≤ xy.2 then pre
  else if pixs.d = 1 then
    (if getPix pixs xy.1.toNat xy.2.toNat ≠ 0 then 1 else pre)
  else getPix pixs xy.1.toNat xy.2.toNat

/-- Depth-8 one-pixel test image. -/
def pix8 : Pix := ⟨1, 1, 8, none, [200]⟩

/-- Depth-1 one-pixel test image holding a white (0) pixel. -/
def pixBW : Pix := ⟨1, 1, 1, none, [0]⟩

/-- Correspondence set with three collinear source points, the
degenerate example of the spec. -/
def collinearPts : List (ℚ × ℚ) := [(0, 0), (10, 0), (20, 0), (0, 10)]

/-- Colormapped one-pixel test image whose colormap holds only black. -/
def pixCm : Pix := ⟨1, 1, 8, some [(0, 0, 0)], [0]⟩

/-- Value of a linear row at a candidate solution: the dot product of
the first n row entries with the vector. -/
def rowEval (n : Nat) (row v : List ℚ) : ℚ :=
  ∑ j ∈ Finset.range n, row.getD j 0 * v.getD j 0

/-- An augmented row, n coefficients followed by the right-hand side at
index n, is satisfied by a vector. -/
def rowSat (n : Nat) (row v : List ℚ) : Prop := rowEval n row v = row.getD n 0

/-- A vector satisfies every row of an augmented matrix. -/
def augSat (n : Nat) (m : List (List ℚ)) (v : List ℚ) : Prop :=
  ∀ row ∈ m, rowSat n row v

/-- The first k columns of an n-row matrix form the identity pattern. -/
def idUpTo (n k : Nat) (m : List (List ℚ)) : Prop :=
  ∀ s, s < n → ∀ j, j < k → (m.getD s []).getD j 0 = if s = j then 1 else 0

/-- Every row of a matrix has the given length. -/
def rowsLen (m : List (List ℚ)) (len : Nat) : Prop :=
  ∀ row ∈ m, row.length = len

/-- Colormapped depth-1 one-pixel test image: entry 0 black, entry 1
white, pixel value 0 (black). -/
def pixBWCm : Pix := ⟨1, 1, 1, some [(0, 0, 0), (255, 255, 255)], [0]⟩

lemma getPix_lt (p : Pix) (x y : Nat) : getPix p x y < 2 ^ p.d :=
  Nat.mod_lt _ (Nat.pos_pow_of_pos _ (by norm_num))

lemma setPix_w (p : Pix) (x y v : Nat) : (setPix p x y v).w = p.w := rfl

lemma setPix_h (p : Pix) (x y v : Nat) : (setPix p x y v).h = p.h := rfl

lemma setPix_d (p : Pix) (x y v : Nat) : (setPix p x y v).d = p.d := rfl

lemma setPix_cmap (p : Pix) (x y v : Nat) : (setPix p x y v).cmap = p.cmap := rfl

lemma setPix_len (p : Pix) (x y v : Nat) :
    (setPix p x y v).data.length = p.data.length := by
  simp [setPix]

lemma getD_replicate (n m : Nat) (a : Nat) :
    (List.replicate n a).getD m 0 = if m < n then a else 0 := by
  induction n generalizing m with
  | zero => simp
  | succ k ih =>
    cases m with
    | zero => simp [List.replicate]
    | succ m2 => simpa [List.replicate, Nat.succ_lt_succ_iff] using ih m2

lemma rowIdx_inj (w a b i j : Nat) (ha : a < w) (hj : j < w) :
    b * w + a = i * w + j ↔ b = i ∧ a = j := by
  constructor
  · intro he
    have hw : 0 < w := Nat.lt_of_le_of_lt (Nat.zero_le a) ha
    have he2 : a + b * w = j + i * w := by omega
    have h1 := congrArg (fun t => t % w) he2
    simp only [Nat.add_mul_mod_self_right] at h1
    rw [Nat.mod_eq_of_lt ha, Nat.mod_eq_of_lt hj] at h1
    subst h1
    have h3 : b * w = i * w := by omega
    exact ⟨Nat.eq_of_mul_eq_mul_right hw h3, rfl⟩
  · rintro ⟨rfl, rfl⟩
    rfl

lemma getPix_setPix (p : Pix) (i j v a b : Nat) (hlen : p.data.length = p.w * p.h)
    (hj : j < p.w) (hi : i < p.h) (ha : a < p.w) :
    getPix (setPix p j i v) a b =
      if a = j ∧ b = i then v % 2 ^ p.d else getPix p a b := by
  unfold getPix setPix
  by_cases hab : a = j ∧ b = i
  · obtain ⟨rfl, rfl⟩ := hab
    have hidx : b * p.w + a < p.data.length := by
      rw [hlen]
      calc b * p.w + a < b * p.w + p.w := by omega
        _ = (b + 1) * p.w := by ring
        _ ≤ p.h * p.w := Nat.mul_le_mul_right _ (by omega)
        _ = p.w * p.h := Nat.mul_comm _ _
    rw [if_pos ⟨rfl, rfl⟩, List.getD_eq_getElem?_getD,
      List.getElem?_set_eq_of_lt _ hidx]
    simp [Nat.mod_mod_of_dvd _ dvd_rfl]
  · rw [if_neg hab]
    have hne : i * p.w + j ≠ b * p.w + a := by
      intro he
      rw [rowIdx_inj p.w j i b a hj ha] at he
      exact hab ⟨he.2.symm, he.1.symm⟩
    rw [List.getD_eq_getElem?_getD, List.getD_eq_getElem?_getD,
      List.getElem?_set_ne hne]

lemma rowIdx_lt (w h a b : Nat) (ha : a < w) (hb : b < h) : b * w + a < w * h :=
  calc b * w + a < b * w + w := by omega
    _ = (b + 1) * w := by ring
    _ ≤ h * w := Nat.mul_le_mul_right _ (by omega)
    _ = w * h := Nat.mul_comm _ _

lemma getPix_replicate (p : Pix) (v : Nat)
    (hdata : p.data = List.replicate (p.w * p.h) v) (a b : Nat)
    (ha : a < p.w) (hb : b < p.h) : getPix p a b = v % 2 ^ p.d := by
  unfold getPix
  rw [hdata, getD_replicate, if_pos (rowIdx_lt p.w p.h a b ha hb)]

lemma samplePixel_w (pixs acc : Pix) (vc : List ℚ) (i j : Nat) :
    (samplePixel pixs vc i j acc).w = acc.w := by
  simp only [samplePixel]
  split_ifs <;> rfl

lemma samplePixel_h (pixs acc : Pix) (vc : List ℚ) (i j : Nat) :
    (samplePixel pixs vc i j acc).h = acc.h := by
  simp only [samplePixel]
  split_ifs <;> rfl

lemma samplePixel_d (pixs acc : Pix) (vc : List ℚ) (i j : Nat) :
    (samplePixel pixs vc i j acc).d = acc.d := by
  simp only [samplePixel]
  split_ifs <;> rfl

lemma samplePixel_cmap (pixs acc : Pix) (vc : List ℚ) (i j : Nat) :
    (samplePixel pixs vc i j acc).cmap = acc.cmap := by
  simp only [samplePixel]
  split_ifs <;> rfl

lemma samplePixel_len (pixs acc : Pix) (vc : List ℚ) (i j : Nat) :
    (samplePixel pixs vc i j acc).data.length = acc.data.length := by
  simp only [samplePixel]
  split_ifs <;> simp [setPix]

lemma getPix_samplePixel (pixs acc : Pix) (vc : List ℚ) (i j a b : Nat)
    (hw : acc.w = pixs.w) (hh : acc.h = pixs.h) (hd : acc.d = pixs.d)
    (hlen : acc.data.length = acc.w * acc.h)
    (hds : pixs.d = 1 ∨ pixs.d = 2 ∨ pixs.d = 4 ∨ pixs.d = 8 ∨ pixs.d = 32)
    (hj : j < pixs.w) (hi : i < pixs.h) (ha : a < pixs.w) :
    getPix (samplePixel pixs vc i j acc) a b =
      if a = j ∧ b = i then samplePixelVal pixs vc i j (getPix acc j i)
      else getPix acc a b := by
  have hj2 : j < acc.w := hw ▸ hj
  have hi2 : i < acc.h := hh ▸ hi
  have ha2 : a < acc.w := hw ▸ ha
  have hacc : ∀ x y, getPix acc x y < 2 ^ acc.d := fun x y => getPix_lt acc x y
  have hsrc : ∀ x y, getPix pixs x y % 2 ^ acc.d = getPix pixs x y := by
    intro x y
    rw [hd]
    exact Nat.mod_eq_of_lt (getPix_lt pixs x y)
  unfold samplePixel samplePixelVal
  by_cases hoob : (projectiveXformSampledPt vc j i).1 < 0 ∨
      (projectiveXformSampledPt vc j i).2 < 0 ∨
      (pixs.w : ℤ) ≤ (projectiveXformSampledPt vc j i).1 ∨
      (pixs.h : ℤ) ≤ (projectiveXformSampledPt vc j i).2
  · rw [if_pos hoob, if_pos hoob]
    by_cases hab : a = j ∧ b = i
    · obtain ⟨rfl, rfl⟩ := hab
      rw [if_pos ⟨rfl, rfl⟩]
    · rw [if_neg hab]
  · rw [if_neg hoob, if_neg hoob]
    by_cases hd1 : pixs.d = 1
    · rw [if_pos hd1, if_pos hd1]
      by_cases hbit : getPix pixs (projectiveXformSampledPt vc j i).1.toNat
          (projectiveXformSampledPt vc j i).2.toNat ≠ 0
      · rw [if_pos hbit, if_pos hbit,
          getPix_setPix acc i j 1 a b (by rw [hlen]) hj2 hi2 ha2]
        have h1 : (1 : Nat) % 2 ^ acc.d = 1 := by
          rw [hd, hd1]
          norm_num
        rw [h1]
      · rw [if_neg hbit, if_neg hbit]
        by_cases hab : a = j ∧ b = i
        · obtain ⟨rfl, rfl⟩ := hab
          rw [if_pos ⟨rfl, rfl⟩]
        · rw [if_neg hab]
    · rw [if_neg hd1, if_neg hd1]
      have hset : getPix (setPix acc j i (getPix pixs
          (projectiveXformSampledPt vc j i).1.toNat
          (projectiveXformSampledPt vc j i).2.toNat)) a b =
          if a = j ∧ b = i then getPix pixs (projectiveXformSampledPt vc j i).1.toNat
            (projectiveXformSampledPt vc j i).2.toNat
          else getPix acc a b := by
        rw [getPix_setPix acc i j _ a b (by rw [hlen]) hj2 hi2 ha2, hsrc]
      rcases hds with h5 | h5 | h5 | h5 | h5
      · exact absurd h5 hd1
      · rw [if_neg (by omega : ¬ pixs.d = 8), if_neg (by omega : ¬ pixs.d = 32),
          if_pos h5]
        exact hset
      · rw [if_neg (by omega : ¬ pixs.d = 8), if_neg (by omega : ¬ pixs.d = 32),
          if_neg (by omega : ¬ pixs.d = 2), if_pos h5]
        exact hset
      · rw [if_pos h5]
        exact hset
      · rw [if_neg (by omega : ¬ pixs.d = 8), if_pos h5]
        exact hset

lemma rowFold_shape (pixs : Pix) (vc : List ℚ) (i : Nat) (l : List Nat) :
    ∀ acc : Pix,
      (l.foldl (fun x j => samplePixel pixs vc i j x) acc).w = acc.w ∧
      (l.foldl (fun x j => samplePixel pixs vc i j x) acc).h = acc.h ∧
      (l.foldl (fun x j => samplePixel pixs vc i j x) acc).d = acc.d ∧
      (l.foldl (fun x j => samplePixel pixs vc i j x) acc).cmap = acc.cmap ∧
      (l.foldl (fun x j => samplePixel pixs vc i j x) acc).data.length =
        acc.data.length := by
  induction l with
  | nil => intro acc; exact ⟨rfl, rfl, rfl, rfl, rfl⟩
  | cons j t ih =>
    intro acc
    obtain ⟨h1, h2, h3, h4, h5⟩ := ih (samplePixel pixs vc i j acc)
    refine ⟨?_, ?_, ?_, ?_, ?_⟩ <;>
      rw [List.foldl_cons]
    · rw [h1, samplePixel_w]
    · rw [h2, samplePixel_h]
    · rw [h3, samplePixel_d]
    · rw [h4, samplePixel_cmap]
    · rw [h5, samplePixel_len]

lemma sampleRow_shape (pixs : Pix) (vc : List ℚ) (i : Nat) (acc : Pix) :
    (sampleRow pixs vc i acc).w = acc.w ∧ (sampleRow pixs vc i acc).h = acc.h ∧
    (sampleRow pixs vc i acc).d = acc.d ∧
    (sampleRow pixs vc i acc).cmap = acc.cmap ∧
    (sampleRow pixs vc i acc).data.length = acc.data.length :=
  rowFold_shape pixs vc i (List.range pixs.w) acc

lemma passFold_shape (pixs : Pix) (vc : List ℚ) (l : List Nat) :
    ∀ acc : Pix,
      (l.foldl (fun x i => sampleRow pixs vc i x) acc).w = acc.w ∧
      (l.foldl (fun x i => sampleRow pixs vc i x) acc).h = acc.h ∧
      (l.foldl (fun x i => sampleRow pixs vc i x) acc).d = acc.d ∧
      (l.foldl (fun x i => sampleRow pixs vc i x) acc).cmap = acc.cmap ∧
      (l.foldl (fun x i => sampleRow pixs vc i x) acc).data.length =
        acc.data.length := by
  induction l with
  | nil => intro acc; exact ⟨rfl, rfl, rfl, rfl, rfl⟩
  | cons i t ih =>
    intro acc
    obtain ⟨h1, h2, h3, h4, h5⟩ := ih (sampleRow pixs vc i acc)
    obtain ⟨g1, g2, g3, g4, g5⟩ := sampleRow_shape pixs vc i acc
    refine ⟨?_, ?_, ?_, ?_, ?_⟩ <;> rw [List.foldl_cons]
    · rw [h1, g1]
    · rw [h2, g2]
    · rw [h3, g3]
    · rw [h4, g4]
    · rw [h5, g5]

lemma getPix_rowFold (pixs : Pix) (vc : List ℚ) (i : Nat) (hi : i < pixs.h)
    (hds : pixs.d = 1 ∨ pixs.d = 2 ∨ pixs.d = 4 ∨ pixs.d = 8 ∨ pixs.d = 32)
    (n : Nat) (hn : n ≤ pixs.w) :
    ∀ acc : Pix, acc.w = pixs.w → acc.h = pixs.h → acc.d = pixs.d →
      acc.data.length = acc.w * acc.h →
      ∀ a b : Nat, a < pixs.w →
      getPix ((List.range n).foldl (fun x j => samplePixel pixs vc i j x) acc) a b =
        if a < n ∧ b = i then samplePixelVal pixs vc i a (getPix acc a i)
        else getPix acc a b := by
  induction n with
  | zero =>
    intro acc hw hh hd hlen a b ha
    simp
  | succ n ih =>
    intro acc hw hh hd hlen a b ha
    have hn2 : n ≤ pixs.w := Nat.le_of_succ_le hn
    have hjn : n < pixs.w := hn
    obtain ⟨f1, f2, f3, f4, f5⟩ :=
      rowFold_shape pixs vc i (List.range n) acc
    rw [List.range_succ, List.foldl_append, List.foldl_cons, List.foldl_nil]
    rw [getPix_samplePixel pixs _ vc i n a b (by rw [f1, hw]) (by rw [f2, hh])
      (by rw [f3, hd]) (by rw [f5, f1, f2, hlen]) hds hjn hi ha]
    rw [ih hn2 acc hw hh hd hlen n i hjn]
    rw [ih hn2 acc hw hh hd hlen a b ha]
    by_cases hcase : a = n ∧ b = i
    · obtain ⟨rfl, rfl⟩ := hcase
      rw [if_pos ⟨rfl, rfl⟩, if_neg (by omega), if_pos (by omega)]
    · rw [if_neg hcase]
      by_cases hc2 : a < n ∧ b = i
      · rw [if_pos hc2, if_pos (by omega)]
      · rw [if_neg hc2, if_neg (by omega)]

lemma getPix_sampleRow (pixs : Pix) (vc : List ℚ) (i : Nat) (hi : i < pixs.h)
    (hds : pixs.d = 1 ∨ pixs.d = 2 ∨ pixs.d = 4 ∨ pixs.d = 8 ∨ pixs.d = 32)
    (acc : Pix) (hw : acc.w = pixs.w) (hh : acc.h = pixs.h) (hd : acc.d = pixs.d)
    (hlen : acc.data.length = acc.w * acc.h) (a b : Nat) (ha : a < pixs.w) :
    getPix (sampleRow pixs vc i acc) a b =
      if b = i then samplePixelVal pixs vc i a (getPix acc a i)
      else getPix acc a b := by
  unfold sampleRow
  rw [getPix_rowFold pixs vc i hi hds pixs.w (le_refl _) acc hw hh hd hlen a b ha]
  by_cases hb : b = i
  · rw [if_pos ⟨ha, hb⟩, if_pos hb]
  · rw [if_neg (fun hc => hb hc.2), if_neg hb]

lemma getPix_passFold (pixs : Pix) (vc : List ℚ)
    (hds : pixs.d = 1 ∨ pixs.d = 2 ∨ pixs.d = 4 ∨ pixs.d = 8 ∨ pixs.d = 32)
    (m : Nat) (hm : m ≤ pixs.h) :
    ∀ acc : Pix, acc.w = pixs.w → acc.h = pixs.h → acc.d = pixs.d →
      acc.data.length = acc.w * acc.h →
      ∀ a b : Nat, a < pixs.w →
      getPix ((List.range m).foldl (fun x i => sampleRow pixs vc i x) acc) a b =
        if b < m then samplePixelVal pixs vc b a (getPix acc a b)
        else getPix acc a b := by
  induction m with
  | zero =>
    intro acc hw hh hd hlen a b ha
    simp
  | succ m ih =>
    intro acc hw hh hd hlen a b ha
    have hm2 : m ≤ pixs.h := Nat.le_of_succ_le hm
    have him : m < pixs.h := hm
    obtain ⟨f1, f2, f3, f4, f5⟩ := passFold_shape pixs vc (List.range m) acc
    rw [List.range_succ, List.foldl_append, List.foldl_cons, List.foldl_nil]
    rw [getPix_sampleRow pixs vc m him hds _ (by rw [f1, hw]) (by rw [f2, hh])
      (by rw [f3, hd]) (by rw [f5, f1, f2, hlen]) a b ha]
    rw [ih hm2 acc hw hh hd hlen a m ha]
    rw [ih hm2 acc hw hh hd hlen a b ha]
    by_cases hcase : b = m
    · subst hcase
      rw [if_pos rfl, if_neg (by omega), if_pos (by omega)]
    · rw [if_neg hcase]
      by_cases hc2 : b < m
      · rw [if_pos hc2, if_pos (by omega)]
      · rw [if_neg hc2, if_neg (by omega)]

lemma getPix_samplePass (pixs : Pix) (vc : List ℚ)
    (hds : pixs.d = 1 ∨ pixs.d = 2 ∨ pixs.d = 4 ∨ pixs.d = 8 ∨ pixs.d = 32)
    (acc : Pix) (hw : acc.w = pixs.w) (hh : acc.h = pixs.h) (hd : acc.d = pixs.d)
    (hlen : acc.data.length = acc.w * acc.h) (a b : Nat)
    (ha : a < pixs.w) (hb : b < pixs.h) :
    getPix (samplePass pixs vc acc) a b =
      samplePixelVal pixs vc b a (getPix acc a b) := by
  unfold samplePass
  rw [getPix_passFold pixs vc hds pixs.h (le_refl _) acc hw hh hd hlen a b ha,
    if_pos hb]

lemma cmapIndexOf_spec (e : Nat × Nat × Nat) :
    ∀ (c : List (Nat × Nat × Nat)) (i : Nat), cmapIndexOf e c = some i →
      i < c.length ∧ c.getD i (0, 0, 0) = e := by
  intro c
  induction c with
  | nil => intro i hi; simp [cmapIndexOf] at hi
  | cons f t ih =>
    intro i hi
    unfold cmapIndexOf at hi
    by_cases hf : f = e
    · rw [if_pos hf] at hi
      obtain rfl : (0 : Nat) = i := Option.some_injective _ hi
      exact ⟨Nat.succ_pos _, hf⟩
    · rw [if_neg hf] at hi
      cases hrec : cmapIndexOf e t with
      | none => rw [hrec] at hi; simp at hi
      | some i2 =>
        rw [hrec] at hi
        have h3 : i2 + 1 = i := by simpa using hi
        subst h3
        obtain ⟨h1, h2⟩ := ih i2 hrec
        exact ⟨Nat.succ_lt_succ h1, h2⟩

lemma addBW_idx_le (c : List (Nat × Nat × Nat)) (color : Nat) :
    (pixcmapAddBlackOrWhite c color).2 ≤ c.length := by
  simp only [pixcmapAddBlackOrWhite]
  cases hrec : cmapIndexOf (if color = 1 then (255, 255, 255) else (0, 0, 0)) c with
  | none => exact Nat.le_refl _
  | some i => exact Nat.le_of_lt (cmapIndexOf_spec _ c i hrec).1

lemma addBW_entry (c : List (Nat × Nat × Nat)) (color : Nat) :
    (pixcmapAddBlackOrWhite c color).1.getD (pixcmapAddBlackOrWhite c color).2
      (0, 0, 0) = (if color = 1 then (255, 255, 255) else (0, 0, 0)) := by
  simp only [pixcmapAddBlackOrWhite]
  cases hrec : cmapIndexOf (if color = 1 then (255, 255, 255) else (0, 0, 0)) c with
  | none =>
    show (c ++ [if color = 1 then (255, 255, 255) else (0, 0, 0)]).getD c.length
      (0, 0, 0) = _
    rw [List.getD_eq_getElem?_getD, List.getElem?_append_right (Nat.le_refl _)]
    simp
  | some i => exact (cmapIndexOf_spec _ c i hrec).2

lemma addBW_ext (c : List (Nat × Nat × Nat)) (color : Nat) :
    (pixcmapAddBlackOrWhite c color).1 = c ∨
      (pixcmapAddBlackOrWhite c color).1 =
        c ++ [if color = 1 then (255, 255, 255) else (0, 0, 0)] := by
  simp only [pixcmapAddBlackOrWhite]
  cases hrec : cmapIndexOf (if color = 1 then (255, 255, 255) else (0, 0, 0)) c with
  | none => exact Or.inr rfl
  | some i => exact Or.inl rfl

lemma samplePrefill_fst_shape (pixs : Pix) (incolor : Nat) :
    (samplePrefill pixs incolor).1.w = pixs.w ∧
    (samplePrefill pixs incolor).1.h = pixs.h ∧
    (samplePrefill pixs incolor).1.d = pixs.d ∧
    (samplePrefill pixs incolor).1.cmap = pixs.cmap ∧
    (samplePrefill pixs incolor).1.data.length = pixs.w * pixs.h := by
  unfold samplePrefill
  cases hc : pixs.cmap with
  | none =>
    split_ifs <;> refine ⟨rfl, rfl, rfl, hc, ?_⟩ <;>
      simp [pixClearAll, pixSetAll, pixCreateTemplate]
  | some c =>
    refine ⟨rfl, rfl, rfl, hc, ?_⟩
    simp [pixSetAllArbitrary, pixCreateTemplate]

lemma samplePrefill_snd_none (pixs : Pix) (incolor : Nat)
    (hc : pixs.cmap = none) : (samplePrefill pixs incolor).2 = pixs := by
  unfold samplePrefill
  rw [hc]
  split_ifs <;> rfl

lemma samplePrefill_snd_some (pixs : Pix) (incolor : Nat)
    (c : List (Nat × Nat × Nat)) (hc : pixs.cmap = some c) :
    (samplePrefill pixs incolor).2.w = pixs.w ∧
    (samplePrefill pixs incolor).2.h = pixs.h ∧
    (samplePrefill pixs incolor).2.d = pixs.d ∧
    (samplePrefill pixs incolor).2.data = pixs.data ∧
    (samplePrefill pixs incolor).2.cmap =
      some (pixcmapAddBlackOrWhite c
        (if incolor = L_BRING_IN_WHITE then 1 else 0)).1 := by
  unfold samplePrefill
  rw [hc]
  exact ⟨rfl, rfl, rfl, rfl, rfl⟩

lemma getPix_samplePrefill_none (pixs : Pix) (incolor : Nat)
    (hc : pixs.cmap = none) (a b : Nat) (ha : a < pixs.w) (hb : b < pixs.h) :
    getPix (samplePrefill pixs incolor).1 a b =
      if (pixs.d = 1 ∧ incolor = L_BRING_IN_WHITE) ∨
          (1 < pixs.d ∧ incolor = L_BRING_IN_BLACK) then 0
      else 2 ^ pixs.d - 1 := by
  have hpow : 0 < 2 ^ pixs.d := Nat.pos_pow_of_pos _ (by norm_num)
  unfold samplePrefill
  rw [hc]
  show getPix (if (pixs.d = 1 ∧ incolor = L_BRING_IN_WHITE) ∨
      (1 < pixs.d ∧ incolor = L_BRING_IN_BLACK) then
      (pixClearAll (pixCreateTemplate pixs), pixs)
    else (pixSetAll (pixCreateTemplate pixs), pixs)).1 a b = _
  split_ifs with hcond
  · show getPix (pixClearAll (pixCreateTemplate pixs)) a b = 0
    simp only [getPix, pixClearAll, pixCreateTemplate]
    rw [getD_replicate, if_pos (rowIdx_lt pixs.w pixs.h a b ha hb)]
    simp
  · show getPix (pixSetAll (pixCreateTemplate pixs)) a b = 2 ^ pixs.d - 1
    simp only [getPix, pixSetAll, pixCreateTemplate]
    rw [getD_replicate, if_pos (rowIdx_lt pixs.w pixs.h a b ha hb)]
    exact Nat.mod_eq_of_lt (by omega)

lemma getPix_samplePrefill_some (pixs : Pix) (incolor : Nat)
    (c : List (Nat × Nat × Nat)) (hc : pixs.cmap = some c) (a b : Nat)
    (ha : a < pixs.w) (hb : b < pixs.h) :
    getPix (samplePrefill pixs incolor).1 a b =
      (pixcmapAddBlackOrWhite c (if incolor = L_BRING_IN_WHITE then 1 else 0)).2
        % 2 ^ pixs.d := by
  unfold samplePrefill
  rw [hc]
  show getPix (pixSetAllArbitrary (pixCreateTemplate pixs)
    (pixcmapAddBlackOrWhite c
      (if incolor = L_BRING_IN_WHITE then 1 else 0)).2) a b = _
  simp only [getPix, pixSetAllArbitrary, pixCreateTemplate]
  rw [getD_replicate, if_pos (rowIdx_lt pixs.w pixs.h a b ha hb)]
  exact Nat.mod_mod_of_dvd _ dvd_rfl

lemma pixProjectiveSampled_eq (pixs : Pix) (vc : List ℚ) (incolor : Nat)
    (hic : incolor = L_BRING_IN_WHITE ∨ incolor = L_BRING_IN_BLACK)
    (hds : pixs.d = 1 ∨ pixs.d = 2 ∨ pixs.d = 4 ∨ pixs.d = 8 ∨ pixs.d = 32) :
    pixProjectiveSampled pixs vc incolor =
      some (samplePass pixs vc (samplePrefill pixs incolor).1,
        (samplePrefill pixs incolor).2) := by
  unfold pixProjectiveSampled
  rw [if_neg (by tauto), if_neg (by tauto)]

lemma pixProjectiveSampled_getPix (pixs : Pix) (vc : List ℚ) (incolor : Nat)
    (hic : incolor = L_BRING_IN_WHITE ∨ incolor = L_BRING_IN_BLACK)
    (hds : pixs.d = 1 ∨ pixs.d = 2 ∨ pixs.d = 4 ∨ pixs.d = 8 ∨ pixs.d = 32)
    (a b : Nat) (ha : a < pixs.w) (hb : b < pixs.h) :
    (pixProjectiveSampled pixs vc incolor).map (fun pr => getPix pr.1 a b) =
      some (samplePixelVal pixs vc b a
        (getPix (samplePrefill pixs incolor).1 a b)) := by
  obtain ⟨s1, s2, s3, s4, s5⟩ := samplePrefill_fst_shape pixs incolor
  rw [pixProjectiveSampled_eq pixs vc incolor hic hds]
  show some (getPix (samplePass pixs vc (samplePrefill pixs incolor).1) a b) = _
  rw [getPix_samplePass pixs vc hds _ s1 s2 s3 (by rw [s5, s1, s2]) a b ha hb]

lemma ratTrunc_int_add_half (x : ℤ) (hx : 0 ≤ x) :
    ratTrunc ((x : ℚ) + 1/2) = x := by
  have hx2 : (0 : ℚ) ≤ (x : ℚ) := by exact_mod_cast hx
  unfold ratTrunc
  rw [if_pos (by linarith), add_comm, Int.floor_add_int]
  norm_num

lemma projectiveXformSampledPt_id (x y : ℤ) (hx : 0 ≤ x) (hy : 0 ≤ y) :
    projectiveXformSampledPt idProjVc x y = (x, y) := by
  unfold projectiveXformSampledPt
  have g0 : idProjVc.getD 0 0 = 1 := rfl
  have g1 : idProjVc.getD 1 0 = 0 := rfl
  have g2 : idProjVc.getD 2 0 = 0 := rfl
  have g3 : idProjVc.getD 3 0 = 0 := rfl
  have g4 : idProjVc.getD 4 0 = 1 := rfl
  have g5 : idProjVc.getD 5 0 = 0 := rfl
  have g6 : idProjVc.getD 6 0 = 0 := rfl
  have g7 : idProjVc.getD 7 0 = 0 := rfl
  rw [g0, g1, g2, g3, g4, g5, g6, g7]
  have e1 : (1 : ℚ) / (0 * (x : ℚ) + 0 * (y : ℚ) + 1) *
      (1 * (x : ℚ) + 0 * (y : ℚ) + 0) + 1/2 = (x : ℚ) + 1/2 := by
    norm_num
  have e2 : (1 : ℚ) / (0 * (x : ℚ) + 0 * (y : ℚ) + 1) *
      (0 * (x : ℚ) + 1 * (y : ℚ) + 0) + 1/2 = (y : ℚ) + 1/2 := by
    norm_num
  show (ratTrunc (1 / (0 * (x : ℚ) + 0 * (y : ℚ) + 1) *
      (1 * (x : ℚ) + 0 * (y : ℚ) + 0) + 1/2),
    ratTrunc (1 / (0 * (x : ℚ) + 0 * (y : ℚ) + 1) *
      (0 * (x : ℚ) + 1 * (y : ℚ) + 0) + 1/2)) = (x, y)
  rw [e1, e2, ratTrunc_int_add_half x hx, ratTrunc_int_add_half y hy]

lemma samplePixelVal_id (pixs : Pix) (a b pre : Nat)
    (ha : a < pixs.w) (hb : b < pixs.h) :
    samplePixelVal pixs idProjVc b a pre =
      if pixs.d = 1 then (if getPix pixs a b ≠ 0 then 1 else pre)
      else getPix pixs a b := by
  unfold samplePixelVal
  rw [projectiveXformSampledPt_id (a : ℤ) (b : ℤ) (Int.ofNat_nonneg a)
    (Int.ofNat_nonneg b)]
  rw [if_neg (by push_cast; omega)]
  simp

lemma replicate_ne (n a b : Nat) (hn : 0 < n) (hab : a ≠ b) :
    List.replicate n a ≠ List.replicate n b := by
  intro h
  have h2 := congrArg (fun l => l.getD 0 0) h
  simp only [getD_replicate, if_pos hn] at h2
  exact hab h2

lemma getD_map_range (n s : Nat) (f : Nat → List ℚ) (hs : s < n) :
    ((List.range n).map f).getD s [] = f s := by
  rw [List.getD_eq_getElem?_getD, List.getElem?_map,
    List.getElem?_eq_getElem (by simpa : s < (List.range n).length)]
  simp [List.getElem_range]

lemma getD_map_getD (m : List (List ℚ)) (s : Nat) (hs : s < m.length) :
    (m.map (fun row => row.getD 8 0)).getD s 0 = (m.getD s []).getD 8 0 := by
  rw [List.getD_eq_getElem?_getD, List.getElem?_map,
    List.getElem?_eq_getElem (by simpa : s < m.length)]
  simp [List.getD_eq_getElem?_getD, List.getElem?_eq_getElem hs]

lemma mem_drop_range (n k r : Nat) (h : r ∈ (List.range n).drop k) :
    k ≤ r ∧ r < n := by
  obtain ⟨i, hi, hr⟩ := List.mem_iff_getElem.mp h
  rw [List.getElem_drop, List.getElem_range] at hr
  have hlen : i < n - k := by simpa using hi
  omega

lemma findPiv_spec (m : List (List ℚ)) (k : Nat) :
    ∀ (cands : List Nat) (r : Nat), findPiv m k cands = some r →
      r ∈ cands ∧ (m.getD r []).getD k 0 ≠ 0 := by
  intro cands
  induction cands with
  | nil => intro r hr; simp [findPiv] at hr
  | cons c t ih =>
    intro r hr
    unfold findPiv at hr
    split_ifs at hr with hc
    · obtain ⟨hm, hnz⟩ := ih r hr
      exact ⟨List.mem_cons_of_mem _ hm, hnz⟩
    · obtain rfl : c = r := Option.some_injective _ hr
      exact ⟨List.mem_cons_self _ _, hc⟩

lemma normRow_length (k : Nat) (row : List ℚ) :
    (normRow k row).length = row.length := by
  simp [normRow]

lemma elimRow_length (piv : List ℚ) (k : Nat) (row : List ℚ)
    (hlen : piv.length = row.length) :
    (elimRow piv k row).length = row.length := by
  simp [elimRow]
  omega

lemma normRow_getD (k : Nat) (row : List ℚ) (j : Nat) :
    (normRow k row).getD j 0 = row.getD j 0 / row.getD k 0 := by
  unfold normRow
  by_cases hj : j < row.length
  · have hjm : j < (row.map (fun v => v / row.getD k 0)).length := by simpa
    rw [List.getD_eq_getElem?_getD, List.getElem?_eq_getElem hjm,
      List.getElem_map, List.getD_eq_getElem row 0 hj]
    rfl
  · rw [List.getD_eq_getElem?_getD, List.getElem?_eq_none (by simpa using le_of_not_lt hj),
      List.getD_eq_getElem?_getD row, List.getElem?_eq_none (le_of_not_lt hj)]
    simp

lemma elimRow_getD (piv : List ℚ) (k : Nat) (row : List ℚ) (j : Nat)
    (hlen : piv.length = row.length) :
    (elimRow piv k row).getD j 0 =
      row.getD j 0 - row.getD k 0 * piv.getD j 0 := by
  unfold elimRow
  by_cases hj : j < row.length
  · have hj2 : j < piv.length := by omega
    have hjz : j < (List.zipWith (fun v p => v - row.getD k 0 * p) row piv).length := by
      simp
      omega
    rw [List.getD_eq_getElem?_getD, List.getElem?_eq_getElem hjz,
      List.getElem_zipWith, List.getD_eq_getElem row 0 hj,
      List.getD_eq_getElem piv 0 hj2]
    rfl
  · have h1 : row.getD j 0 = 0 := by
      rw [List.getD_eq_getElem?_getD, List.getElem?_eq_none (le_of_not_lt hj)]
      rfl
    have h2 : piv.getD j 0 = 0 := by
      rw [List.getD_eq_getElem?_getD, List.getElem?_eq_none (by omega)]
      rfl
    have h3 : (List.zipWith (fun v p => v - row.getD k 0 * p) row piv).getD j 0 = 0 := by
      rw [List.getD_eq_getElem?_getD, List.getElem?_eq_none (by simp; omega)]
      rfl
    rw [h1, h2, h3]
    ring

lemma rowEval_normRow (n k : Nat) (row v : List ℚ) :
    rowEval n (normRow k row) v = rowEval n row v / row.getD k 0 := by
  unfold rowEval
  have h : ∀ j ∈ Finset.range n, (normRow k row).getD j 0 * v.getD j 0 =
      row.getD j 0 * v.getD j 0 / row.getD k 0 := by
    intro j hj
    rw [normRow_getD]
    ring
  rw [Finset.sum_congr rfl h, ← Finset.sum_div]

lemma rowSat_normRow_iff (n k : Nat) (row v : List ℚ)
    (hp : row.getD k 0 ≠ 0) :
    rowSat n (normRow k row) v ↔ rowSat n row v := by
  unfold rowSat
  rw [rowEval_normRow, normRow_getD]
  constructor
  · intro h
    have h2 := congrArg (fun t => t * row.getD k 0) h
    simp only [] at h2
    rwa [div_mul_cancel₀ _ hp, div_mul_cancel₀ _ hp] at h2
  · intro h
    rw [h]

lemma rowEval_elimRow (n k : Nat) (piv row v : List ℚ)
    (hlen : piv.length = row.length) :
    rowEval n (elimRow piv k row) v =
      rowEval n row v - row.getD k 0 * rowEval n piv v := by
  unfold rowEval
  rw [Finset.mul_sum, ← Finset.sum_sub_distrib]
  refine Finset.sum_congr rfl ?_
  intro j hj
  rw [elimRow_getD piv k row j hlen]
  ring

lemma rowSat_elimRow_iff (n k : Nat) (piv row v : List ℚ)
    (hlen : piv.length = row.length) (hpiv : rowSat n piv v) :
    rowSat n (elimRow piv k row) v ↔ rowSat n row v := by
  unfold rowSat at *
  rw [rowEval_elimRow n k piv row v hlen, elimRow_getD piv k row n hlen, hpiv]
  constructor <;> intro h <;> linarith

lemma getD_mem (m : List (List ℚ)) (s : Nat) (hs : s < m.length) :
    m.getD s [] ∈ m := by
  rw [List.getD_eq_getElem m [] hs]
  exact List.getElem_mem hs

lemma swap_getD (m : List (List ℚ)) (r k s : Nat) (hr : r < m.length)
    (hk : k < m.length) (hs : s < m.length) :
    ((m.set r (m.getD k [])).set k (m.getD r [])).getD s [] =
      if s = k then m.getD r [] else if s = r then m.getD k [] else m.getD s [] := by
  rw [List.getD_eq_getElem?_getD]
  by_cases hsk : s = k
  · subst hsk
    rw [List.getElem?_set_eq_of_lt _ (by simpa using hk), if_pos rfl]
    rfl
  · rw [if_neg hsk, List.getElem?_set_ne (fun h => hsk h.symm)]
    by_cases hsr : s = r
    · subst hsr
      rw [List.getElem?_set_eq_of_lt _ (by simpa using hr), if_pos rfl]
      rfl
    · rw [if_neg hsr, List.getElem?_set_ne (fun h => hsr h.symm),
        ← List.getD_eq_getElem?_getD]

lemma swap_length (m : List (List ℚ)) (r k : Nat) :
    ((m.set r (m.getD k [])).set k (m.getD r [])).length = m.length := by
  simp

lemma mem_swap (m : List (List ℚ)) (r k : Nat) (hr : r < m.length)
    (hk : k < m.length) (x : List ℚ) :
    x ∈ (m.set r (m.getD k [])).set k (m.getD r []) ↔ x ∈ m := by
  constructor
  · intro hx
    rcases List.mem_or_eq_of_mem_set hx with hx2 | rfl
    · rcases List.mem_or_eq_of_mem_set hx2 with hx3 | rfl
      · exact hx3
      · exact getD_mem m k hk
    · exact getD_mem m r hr
  · intro hx
    obtain ⟨i, hi, hxe⟩ := List.mem_iff_getElem.mp hx
    have hxd : m.getD i [] = x := by rw [List.getD_eq_getElem m [] hi, hxe]
    have hlen : ((m.set r (m.getD k [])).set k (m.getD r [])).length =
        m.length := swap_length m r k
    by_cases hik : i = k
    · have h1 : ((m.set r (m.getD k [])).set k (m.getD r [])).getD r [] = x := by
        rw [swap_getD m r k r hr hk hr]
        by_cases hrk : r = k
        · rw [if_pos hrk, hrk, ← hik, hxd]
        · rw [if_neg hrk, if_pos rfl, ← hik, hxd]
      rw [← h1]
      exact getD_mem _ r (by omega)
    · by_cases hir : i = r
      · have h1 : ((m.set r (m.getD k [])).set k (m.getD r [])).getD k [] = x := by
          rw [swap_getD m r k k hr hk hk, if_pos rfl, ← hir, hxd]
        rw [← h1]
        exact getD_mem _ k (by omega)
      · have h1 : ((m.set r (m.getD k [])).set k (m.getD r [])).getD i [] = x := by
          rw [swap_getD m r k i hr hk hi, if_neg hik, if_neg hir, hxd]
        rw [← h1]
        exact getD_mem _ i (by omega)

lemma idUpTo_swap (n k r : Nat) (m : List (List ℚ)) (hmlen : m.length = n)
    (hkr : k ≤ r) (hrn : r < n) (hinv : idUpTo n k m) :
    idUpTo n k ((m.set r (m.getD k [])).set k (m.getD r [])) := by
  intro s hs j hj
  rw [swap_getD m r k s (by omega) (by omega) (by omega)]
  by_cases hsk : s = k
  · rw [if_pos hsk, hinv r hrn j hj, if_neg (by omega), if_neg (by omega)]
  · rw [if_neg hsk]
    by_cases hsr : s = r
    · rw [if_pos hsr, hinv k (by omega) j hj, if_neg (by omega), if_neg (by omega)]
    · rw [if_neg hsr]
      exact hinv s hs j hj

lemma gjStep_core (n k r : Nat) (m : List (List ℚ)) (hmlen : m.length = n)
    (hkn : k < n) (hkr : k ≤ r) (hrn : r < n)
    (hrows : rowsLen m (n + 1)) (hinv : idUpTo n k m)
    (hpnz : (m.getD r []).getD k 0 ≠ 0) :
    ∀ m1 piv res,
      m1 = (m.set r (m.getD k [])).set k (m.getD r []) →
      piv = normRow k (m1.getD k []) →
      res = (List.range m.length).map
        (fun s => if s = k then piv else elimRow piv k (m1.getD s [])) →
      res.length = n ∧ rowsLen res (n + 1) ∧ idUpTo n (k + 1) res ∧
        ∀ v, augSat n m v ↔ augSat n res v := by
  intro m1 piv res hm1 hpivd hres
  have hkm : k < m.length := by omega
  have hrm : r < m.length := by omega
  have hm1len : m1.length = m.length := by rw [hm1]; simp
  have hm1k : m1.getD k [] = m.getD r [] := by
    rw [hm1, swap_getD m r k k hrm hkm hkm, if_pos rfl]
  have hpnz1 : (m1.getD k []).getD k 0 ≠ 0 := by rw [hm1k]; exact hpnz
  have hm1rows : rowsLen m1 (n + 1) := by
    intro row hrow
    rw [hm1] at hrow
    exact hrows row ((mem_swap m r k hrm hkm row).mp hrow)
  have hm1inv : idUpTo n k m1 := by
    rw [hm1]; exact idUpTo_swap n k r m hmlen hkr hrn hinv
  have hpivlen : piv.length = n + 1 := by
    rw [hpivd, normRow_length]
    exact hm1rows _ (getD_mem m1 k (by omega))
  have hpivj : ∀ j, j < k → piv.getD j 0 = 0 := by
    intro j hj
    rw [hpivd, normRow_getD, hm1k, hinv r hrn j hj,
      if_neg (show r ≠ j by omega)]
    exact zero_div _
  have hpivk : piv.getD k 0 = 1 := by
    rw [hpivd, normRow_getD]
    exact div_self hpnz1
  have hreslen : res.length = n := by rw [hres]; simp [hmlen]
  have hresget : ∀ s, s < n → res.getD s [] =
      if s = k then piv else elimRow piv k (m1.getD s []) := by
    intro s hs
    rw [hres, getD_map_range m.length s _ (by omega)]
  have hm1slen : ∀ s, s < n → (m1.getD s []).length = n + 1 := fun s hs =>
    hm1rows _ (getD_mem m1 s (by omega))
  have hrows2 : rowsLen res (n + 1) := by
    intro row hrow
    rw [hres] at hrow
    obtain ⟨s, hsmem, rfl⟩ := List.mem_map.mp hrow
    have hs : s < n := by
      have := List.mem_range.mp hsmem; omega
    by_cases hsk : s = k
    · rw [if_pos hsk]; exact hpivlen
    · rw [if_neg hsk,
        elimRow_length piv k _ (by rw [hpivlen, hm1slen s hs])]
      exact hm1slen s hs
  have hinv2 : idUpTo n (k + 1) res := by
    intro s hs j hj
    rw [hresget s hs]
    by_cases hsk : s = k
    · rw [if_pos hsk]
      by_cases hjk : j = k
      · rw [hjk, hpivk, if_pos hsk]
      · have hjk2 : j < k := by omega
        rw [hpivj j hjk2, if_neg (show s ≠ j by omega)]
    · rw [if_neg hsk, elimRow_getD piv k _ j (by rw [hpivlen, hm1slen s hs])]
      by_cases hjk : j = k
      · subst hjk
        rw [hpivk, mul_one, sub_self, if_neg hsk]
      · have hjk2 : j < k := by omega
        rw [hpivj j hjk2, mul_zero, sub_zero, hm1inv s hs j hjk2]
  have hsatpiv : ∀ v, augSat n m1 v → rowSat n piv v := by
    intro v h
    rw [hpivd]
    exact (rowSat_normRow_iff n k _ v hpnz1).mpr (h _ (getD_mem m1 k (by omega)))
  have haug : ∀ v, augSat n m v ↔ augSat n res v := by
    intro v
    have h1 : augSat n m v ↔ augSat n m1 v := by
      constructor
      · intro h row hrow
        rw [hm1] at hrow
        exact h row ((mem_swap m r k hrm hkm row).mp hrow)
      · intro h row hrow
        refine h row ?_
        rw [hm1]
        exact (mem_swap m r k hrm hkm row).mpr hrow
    rw [h1]
    constructor
    · intro h
      have hp := hsatpiv v h
      intro row hrow
      rw [hres] at hrow
      obtain ⟨s, hsmem, rfl⟩ := List.mem_map.mp hrow
      have hs : s < n := by have := List.mem_range.mp hsmem; omega
      by_cases hsk : s = k
      · rw [if_pos hsk]; exact hp
      · rw [if_neg hsk]
        exact (rowSat_elimRow_iff n k piv _ v
            (by rw [hpivlen, hm1slen s hs]) hp).mpr
          (h _ (getD_mem m1 s (by omega)))
    · intro h
      have hpmem : piv ∈ res := by
        have he : res.getD k [] = piv := by rw [hresget k hkn, if_pos rfl]
        rw [← he]
        exact getD_mem res k (by omega)
      have hp : rowSat n piv v := h piv hpmem
      intro row hrow
      obtain ⟨s, hs0, rfl⟩ := List.mem_iff_getElem.mp hrow
      rw [← List.getD_eq_getElem m1 [] hs0]
      have hs : s < n := by omega
      by_cases hsk : s = k
      · subst hsk
        have hp2 := hp
        rw [hpivd] at hp2
        exact (rowSat_normRow_iff n s _ v hpnz1).mp hp2
      · have hmem2 : elimRow piv k (m1.getD s []) ∈ res := by
          have he : res.getD s [] = elimRow piv k (m1.getD s []) := by
            rw [hresget s hs, if_neg hsk]
          rw [← he]
          exact getD_mem res s (by omega)
        exact (rowSat_elimRow_iff n k piv _ v
            (by rw [hpivlen, hm1slen s hs]) hp).mp (h _ hmem2)
  exact ⟨hreslen, hrows2, hinv2, haug⟩

lemma gjStep_correct (n k : Nat) (m m2 : List (List ℚ)) (hmlen : m.length = n)
    (hkn : k < n) (hrows : rowsLen m (n + 1)) (hinv : idUpTo n k m)
    (hstep : gjStep k m = some m2) :
    m2.length = n ∧ rowsLen m2 (n + 1) ∧ idUpTo n (k + 1) m2 ∧
      ∀ v, augSat n m v ↔ augSat n m2 v := by
  cases hpiv : findPiv m k ((List.range m.length).drop k) with
  | none => simp [gjStep, hpiv] at hstep
  | some r =>
    simp only [gjStep, hpiv, Option.some.injEq] at hstep
    obtain ⟨hrmem, hpnz⟩ := findPiv_spec m k _ r hpiv
    obtain ⟨hkr, hrn⟩ := mem_drop_range m.length k r hrmem
    exact gjStep_core n k r m hmlen hkn hkr (by omega) hrows hinv hpnz
      _ _ m2 rfl rfl hstep.symm

lemma gjRun_correct (n : Nat) : ∀ (cnt k : Nat) (m mf : List (List ℚ)),
    m.length = n → k + cnt ≤ n → rowsLen m (n + 1) → idUpTo n k m →
    gjRun m (List.range' k cnt) = (true, mf) →
    mf.length = n ∧ rowsLen mf (n + 1) ∧ idUpTo n (k + cnt) mf ∧
      ∀ v, augSat n m v ↔ augSat n mf v := by
  intro cnt
  induction cnt with
  | zero =>
    intro k m mf hmlen hle hrows hinv hrun
    have hmf : mf = m := by
      simp only [List.range', gjRun, Prod.mk.injEq] at hrun
      exact hrun.2.symm
    subst hmf
    exact ⟨hmlen, hrows, hinv, fun v => Iff.rfl⟩
  | succ c ih =>
    intro k m mf hmlen hle hrows hinv hrun
    have hrun2 : (match gjStep k m with
        | none => (false, m)
        | some m2 => gjRun m2 (List.range' (k + 1) c)) = (true, mf) := hrun
    cases hstep : gjStep k m with
    | none => rw [hstep] at hrun2; simp at hrun2
    | some m2 =>
      rw [hstep] at hrun2
      obtain ⟨hl2, hr2, hi2, ha2⟩ :=
        gjStep_correct n k m m2 hmlen (by omega) hrows hinv hstep
      obtain ⟨hl3, hr3, hi3, ha3⟩ :=
        ih (k + 1) m2 mf hl2 (by omega) hr2 hi2 hrun2
      have heq : k + 1 + c = k + (c + 1) := by omega
      rw [heq] at hi3
      exact ⟨hl3, hr3, hi3, fun v => (ha2 v).trans (ha3 v)⟩

lemma idUpTo_sat (n : Nat) (mf : List (List ℚ)) (v : List ℚ)
    (hmf : idUpTo n n mf)
    (s : Nat) (hs : s < n) (hsat : rowSat n (mf.getD s []) v) :
    v.getD s 0 = (mf.getD s []).getD n 0 := by
  have h : rowEval n (mf.getD s []) v = v.getD s 0 := by
    unfold rowEval
    have hterm : ∀ j ∈ Finset.range n, (mf.getD s []).getD j 0 * v.getD j 0 =
        if s = j then v.getD j 0 else 0 := by
      intro j hj
      rw [hmf s hs j (Finset.mem_range.mp hj)]
      by_cases h2 : s = j
      · rw [if_pos h2, if_pos h2, one_mul]
      · rw [if_neg h2, if_neg h2, zero_mul]
    rw [Finset.sum_congr rfl hterm, Finset.sum_ite_eq,
      if_pos (Finset.mem_range.mpr hs)]
  rw [← h]
  exact hsat

lemma rowSat_nine (a0 a1 a2 a3 a4 a5 a6 a7 rhs : ℚ) (v : List ℚ) :
    rowSat 8 [a0, a1, a2, a3, a4, a5, a6, a7, rhs] v ↔
      a0 * v.getD 0 0 + a1 * v.getD 1 0 + a2 * v.getD 2 0 + a3 * v.getD 3 0 +
      a4 * v.getD 4 0 + a5 * v.getD 5 0 + a6 * v.getD 6 0 + a7 * v.getD 7 0 =
        rhs := by
  unfold rowSat rowEval
  have e0 : ([a0, a1, a2, a3, a4, a5, a6, a7, rhs] : List ℚ).getD 0 0 = a0 := rfl
  have e1 : ([a0, a1, a2, a3, a4, a5, a6, a7, rhs] : List ℚ).getD 1 0 = a1 := rfl
  have e2 : ([a0, a1, a2, a3, a4, a5, a6, a7, rhs] : List ℚ).getD 2 0 = a2 := rfl
  have e3 : ([a0, a1, a2, a3, a4, a5, a6, a7, rhs] : List ℚ).getD 3 0 = a3 := rfl
  have e4 : ([a0, a1, a2, a3, a4, a5, a6, a7, rhs] : List ℚ).getD 4 0 = a4 := rfl
  have e5 : ([a0, a1, a2, a3, a4, a5, a6, a7, rhs] : List ℚ).getD 5 0 = a5 := rfl
  have e6 : ([a0, a1, a2, a3, a4, a5, a6, a7, rhs] : List ℚ).getD 6 0 = a6 := rfl
  have e7 : ([a0, a1, a2, a3, a4, a5, a6, a7, rhs] : List ℚ).getD 7 0 = a7 := rfl
  have e8 : ([a0, a1, a2, a3, a4, a5, a6, a7, rhs] : List ℚ).getD 8 0 = rhs := rfl
  rw [Finset.sum_range_succ, Finset.sum_range_succ, Finset.sum_range_succ,
    Finset.sum_range_succ, Finset.sum_range_succ, Finset.sum_range_succ,
    Finset.sum_range_succ, Finset.sum_range_succ, Finset.sum_range_zero,
    e0, e1, e2, e3, e4, e5, e6, e7, e8]
  constructor <;> intro h <;> linarith

lemma identity_solves (P : List (ℚ × ℚ)) :
    augSat 8 (List.zipWith (fun row v => row ++ [v]) (projMatA P P)
      (projVecB P)) idProjVc := by
  intro row hrow
  simp only [projMatA, projVecB, List.zipWith_cons_cons, List.zipWith_nil_right,
    List.cons_append, List.nil_append, List.mem_cons, List.not_mem_nil,
    or_false] at hrow
  have i0 : idProjVc.getD 0 0 = 1 := rfl
  have i1 : idProjVc.getD 1 0 = 0 := rfl
  have i2 : idProjVc.getD 2 0 = 0 := rfl
  have i3 : idProjVc.getD 3 0 = 0 := rfl
  have i4 : idProjVc.getD 4 0 = 1 := rfl
  have i5 : idProjVc.getD 5 0 = 0 := rfl
  have i6 : idProjVc.getD 6 0 = 0 := rfl
  have i7 : idProjVc.getD 7 0 = 0 := rfl
  rcases hrow with rfl|rfl|rfl|rfl|rfl|rfl|rfl|rfl <;>
    (rw [rowSat_nine, i0, i1, i2, i3, i4, i5, i6, i7]; ring)

lemma gaussjordan_id (P : List (ℚ × ℚ)) (c : List ℚ)
    (hgj : gaussjordan (projMatA P P) (projVecB P) = (true, c)) :
    c = idProjVc := by
  have hmata_len : (projMatA P P).length = 8 := by simp [projMatA]
  have hvecb_len : (projVecB P).length = 8 := by simp [projVecB]
  have haug_len : (List.zipWith (fun row v => row ++ [v]) (projMatA P P)
      (projVecB P)).length = 8 := by
    rw [List.length_zipWith, hmata_len, hvecb_len]
    rfl
  have haug_rows : rowsLen (List.zipWith (fun row v => row ++ [v])
      (projMatA P P) (projVecB P)) 9 := by
    intro row hrow
    simp only [projMatA, projVecB, List.zipWith_cons_cons,
      List.zipWith_nil_right, List.mem_cons, List.not_mem_nil,
      or_false] at hrow
    rcases hrow with rfl|rfl|rfl|rfl|rfl|rfl|rfl|rfl <;> rfl
  have haug_inv : idUpTo 8 0 (List.zipWith (fun row v => row ++ [v])
      (projMatA P P) (projVecB P)) := by
    intro s hs j hj
    exact absurd hj (by omega)
  rcases hrp : gjRun (List.zipWith (fun row v => row ++ [v]) (projMatA P P)
      (projVecB P)) (List.range 8) with ⟨ok, mf⟩
  have hgj2 := hgj
  simp only [gaussjordan] at hgj2
  rw [hrp] at hgj2
  obtain ⟨hok, hc⟩ : ok = true ∧ mf.map (fun row => row.getD 8 0) = c := by
    simpa using hgj2
  rw [hok] at hrp
  rw [List.range_eq_range'] at hrp
  obtain ⟨hlf, hrf, hif, haf⟩ :=
    gjRun_correct 8 8 0 _ mf haug_len (by omega) haug_rows haug_inv hrp
  have hif2 : idUpTo 8 8 mf := by simpa using hif
  have hsat : augSat 8 mf idProjVc := (haf idProjVc).mp (identity_solves P)
  have hclen : c.length = 8 := by rw [← hc, List.length_map, hlf]
  have hidlen : idProjVc.length = 8 := rfl
  apply List.ext_getElem (by rw [hclen, hidlen])
  intro i hi1 hi2
  have hi8 : i < 8 := by omega
  have hcg : c.getD i 0 = (mf.getD i []).getD 8 0 := by
    rw [← hc, getD_map_getD mf i (by omega)]
  have hig := idUpTo_sat 8 mf idProjVc hif2 i hi8
    (hsat _ (getD_mem mf i (by omega)))
  have hfin : c.getD i 0 = idProjVc.getD i 0 := by rw [hcg, ← hig]
  rw [List.getD_eq_getElem c 0 hi1, List.getD_eq_getElem idProjVc 0 hi2] at hfin
  exact hfin

lemma setFoldRow_shape (i : Nat) (g : Nat → Nat) (l : List Nat) :
    ∀ acc : Pix,
      (l.foldl (fun a j => setPix a j i (g j)) acc).w = acc.w ∧
      (l.foldl (fun a j => setPix a j i (g j)) acc).h = acc.h ∧
      (l.foldl (fun a j => setPix a j i (g j)) acc).d = acc.d ∧
      (l.foldl (fun a j => setPix a j i (g j)) acc).cmap = acc.cmap ∧
      (l.foldl (fun a j => setPix a j i (g j)) acc).data.length =
        acc.data.length := by
  induction l with
  | nil => intro acc; exact ⟨rfl, rfl, rfl, rfl, rfl⟩
  | cons j t ih =>
    intro acc
    obtain ⟨h1, h2, h3, h4, h5⟩ := ih (setPix acc j i (g j))
    refine ⟨?_, ?_, ?_, ?_, ?_⟩ <;> rw [List.foldl_cons]
    · rw [h1, setPix_w]
    · rw [h2, setPix_h]
    · rw [h3, setPix_d]
    · rw [h4, setPix_cmap]
    · rw [h5, setPix_len]

lemma getPix_setFoldRow (w h d i : Nat) (g : Nat → Nat) (hi : i < h)
    (n : Nat) (hn : n ≤ w) :
    ∀ acc : Pix, acc.w = w → acc.h = h → acc.d = d →
      acc.data.length = acc.w * acc.h →
      ∀ a b : Nat, a < w →
      getPix ((List.range n).foldl (fun x j => setPix x j i (g j)) acc) a b =
        if a < n ∧ b = i then g a % 2 ^ d else getPix acc a b := by
  induction n with
  | zero =>
    intro acc hw hh hd hlen a b ha
    simp
  | succ n ih =>
    intro acc hw hh hd hlen a b ha
    have hn2 : n ≤ w := Nat.le_of_succ_le hn
    obtain ⟨f1, f2, f3, f4, f5⟩ := setFoldRow_shape i g (List.range n) acc
    rw [List.range_succ, List.foldl_append, List.foldl_cons, List.foldl_nil]
    rw [getPix_setPix _ i n (g n) a b
      (by rw [f5, f1, f2, hlen]) (by rw [f1, hw]; omega) (by rw [f2, hh]; omega)
      (by rw [f1, hw]; omega)]
    rw [ih hn2 acc hw hh hd hlen a b ha, f3, hd]
    by_cases hcase : a = n ∧ b = i
    · obtain ⟨rfl, rfl⟩ := hcase
      rw [if_pos ⟨rfl, rfl⟩, if_pos (by omega)]
    · rw [if_neg hcase]
      by_cases hc2 : a < n ∧ b = i
      · rw [if_pos hc2, if_pos (by omega)]
      · rw [if_neg hc2, if_neg (by omega)]

lemma setFoldPass_shape (w : Nat) (g : Nat → Nat → Nat) (l : List Nat) :
    ∀ acc : Pix,
      (l.foldl (fun x i => (List.range w).foldl
        (fun x2 j => setPix x2 j i (g i j)) x) acc).w = acc.w ∧
      (l.foldl (fun x i => (List.range w).foldl
        (fun x2 j => setPix x2 j i (g i j)) x) acc).h = acc.h ∧
      (l.foldl (fun x i => (List.range w).foldl
        (fun x2 j => setPix x2 j i (g i j)) x) acc).d = acc.d ∧
      (l.foldl (fun x i => (List.range w).foldl
        (fun x2 j => setPix x2 j i (g i j)) x) acc).cmap = acc.cmap ∧
      (l.foldl (fun x i => (List.range w).foldl
        (fun x2 j => setPix x2 j i (g i j)) x) acc).data.length =
        acc.data.length := by
  induction l with
  | nil => intro acc; exact ⟨rfl, rfl, rfl, rfl, rfl⟩
  | cons i t ih =>
    intro acc
    obtain ⟨h1, h2, h3, h4, h5⟩ :=
      ih ((List.range w).foldl (fun x2 j => setPix x2 j i (g i j)) acc)
    obtain ⟨g1, g2, g3, g4, g5⟩ := setFoldRow_shape i (g i) (List.range w) acc
    refine ⟨?_, ?_, ?_, ?_, ?_⟩ <;> rw [List.foldl_cons]
    · rw [h1, g1]
    · rw [h2, g2]
    · rw [h3, g3]
    · rw [h4, g4]
    · rw [h5, g5]

lemma getPix_setFoldPass (w h d : Nat) (g : Nat → Nat → Nat)
    (n : Nat) (hn : n ≤ h) :
    ∀ acc : Pix, acc.w = w → acc.h = h → acc.d = d →
      acc.data.length = acc.w * acc.h →
      ∀ a b : Nat, a < w →
      getPix ((List.range n).foldl (fun x i => (List.range w).foldl
          (fun x2 j => setPix x2 j i (g i j)) x) acc) a b =
        if b < n then g b a % 2 ^ d else getPix acc a b := by
  induction n with
  | zero =>
    intro acc hw hh hd hlen a b ha
    simp
  | succ n ih =>
    intro acc hw hh hd hlen a b ha
    have hn2 : n ≤ h := Nat.le_of_succ_le hn
    obtain ⟨f1, f2, f3, f4, f5⟩ := setFoldPass_shape w g (List.range n) acc
    rw [List.range_succ, List.foldl_append, List.foldl_cons, List.foldl_nil]
    rw [getPix_setFoldRow w h d n (g n) (by omega) w (le_refl _) _
      (by rw [f1, hw]) (by rw [f2, hh]) (by rw [f3, hd])
      (by rw [f5, f1, f2, hlen]) a b ha]
    rw [ih hn2 acc hw hh hd hlen a b ha]
    by_cases hcase : b = n
    · rw [if_pos ⟨ha, hcase⟩, hcase, if_pos (by omega)]
    · rw [if_neg (fun hc => hcase hc.2)]
      by_cases hc2 : b < n
      · rw [if_pos hc2, if_pos (by omega)]
      · rw [if_neg hc2, if_neg (by omega)]

lemma projectiveXformPt_id (x y : ℤ) :
    projectiveXformPt idProjVc x y = (((x : ℤ) : ℚ), ((y : ℤ) : ℚ)) := by
  unfold projectiveXformPt
  have g0 : idProjVc.getD 0 0 = 1 := rfl
  have g1 : idProjVc.getD 1 0 = 0 := rfl
  have g2 : idProjVc.getD 2 0 = 0 := rfl
  have g3 : idProjVc.getD 3 0 = 0 := rfl
  have g4 : idProjVc.getD 4 0 = 1 := rfl
  have g5 : idProjVc.getD 5 0 = 0 := rfl
  have g6 : idProjVc.getD 6 0 = 0 := rfl
  have g7 : idProjVc.getD 7 0 = 0 := rfl
  rw [g0, g1, g2, g3, g4, g5, g6, g7]
  show (1 / (0 * (x : ℚ) + 0 * (y : ℚ) + 1) *
      (1 * (x : ℚ) + 0 * (y : ℚ) + 0),
    1 / (0 * (x : ℚ) + 0 * (y : ℚ) + 1) *
      (0 * (x : ℚ) + 1 * (y : ℚ) + 0)) = (((x : ℤ) : ℚ), ((y : ℤ) : ℚ))
  norm_num

lemma cornerVal_in (p : Pix) (j i border : Nat) (hj : j < p.w) (hi : i < p.h) :
    cornerVal p (j : ℤ) (i : ℤ) border = getPix p j i := by
  unfold cornerVal
  rw [if_pos ⟨Int.natCast_nonneg j, by exact_mod_cast hj,
    Int.natCast_nonneg i, by exact_mod_cast hi⟩]
  rw [Int.toNat_natCast, Int.toNat_natCast]

lemma floor_nat_add_half (n : Nat) : ⌊(n : ℚ) + 1/2⌋ = (n : ℤ) := by
  rw [add_comm, Int.floor_add_nat]
  norm_num

lemma clampByte_natCast (n : Nat) (hn : n < 256) : clampByte (n : ℤ) = n := by
  unfold clampByte
  rw [if_neg (by omega), if_neg (by omega), Int.toNat_natCast]

lemma lIPG_id (p : Pix) (j i border : Nat) (hj : j < p.w) (hi : i < p.h)
    (hd : p.d = 8) :
    linearInterpolatePixelGray p ((j : ℤ) : ℚ) ((i : ℤ) : ℚ) border =
      getPix p j i := by
  simp only [linearInterpolatePixelGray]
  rw [Int.floor_intCast, Int.floor_intCast]
  have hdx : ((j : ℤ) : ℚ) - ((j : ℤ) : ℚ) = 0 := sub_self _
  have hdy : ((i : ℤ) : ℚ) - ((i : ℤ) : ℚ) = 0 := sub_self _
  rw [hdx, hdy]
  have hv : (1 - (0:ℚ)) * (1 - 0) * (cornerVal p (j : ℤ) (i : ℤ) border : ℚ) +
      0 * (1 - 0) * (cornerVal p ((j : ℤ) + 1) (i : ℤ) border : ℚ) +
      (1 - 0) * 0 * (cornerVal p (j : ℤ) ((i : ℤ) + 1) border : ℚ) +
      0 * 0 * (cornerVal p ((j : ℤ) + 1) ((i : ℤ) + 1) border : ℚ) =
      (cornerVal p (j : ℤ) (i : ℤ) border : ℚ) := by ring
  rw [hv, cornerVal_in p j i border hj hi, floor_nat_add_half]
  have hlt : getPix p j i < 256 := by
    have := getPix_lt p j i
    rwa [hd] at this
  rw [clampByte_natCast _ hlt]

lemma pixChannel_lt (v k : Nat) : pixChannel v k < 256 :=
  Nat.mod_lt _ (by norm_num)

lemma channels_repack (v : Nat) (hv : v < 2 ^ 32) :
    pixChannel v 0 * 2 ^ 24 + pixChannel v 1 * 2 ^ 16 +
      pixChannel v 2 * 2 ^ 8 + pixChannel v 3 = v := by
  unfold pixChannel
  norm_num
  omega

lemma interpChannel_id (p : Pix) (j i border k : Nat) (hj : j < p.w)
    (hi : i < p.h) :
    interpChannel p ((j : ℤ) : ℚ) ((i : ℤ) : ℚ) border k =
      pixChannel (getPix p j i) k := by
  simp only [interpChannel]
  rw [Int.floor_intCast, Int.floor_intCast]
  have hdx : ((j : ℤ) : ℚ) - ((j : ℤ) : ℚ) = 0 := sub_self _
  have hdy : ((i : ℤ) : ℚ) - ((i : ℤ) : ℚ) = 0 := sub_self _
  rw [hdx, hdy]
  have hv : (1 - (0:ℚ)) * (1 - 0) *
        (pixChannel (cornerVal p (j : ℤ) (i : ℤ) border) k : ℚ) +
      0 * (1 - 0) * (pixChannel (cornerVal p ((j : ℤ) + 1) (i : ℤ) border) k : ℚ) +
      (1 - 0) * 0 * (pixChannel (cornerVal p (j : ℤ) ((i : ℤ) + 1) border) k : ℚ) +
      0 * 0 * (pixChannel (cornerVal p ((j : ℤ) + 1) ((i : ℤ) + 1) border) k : ℚ) =
      (pixChannel (cornerVal p (j : ℤ) (i : ℤ) border) k : ℚ) := by ring
  rw [hv, cornerVal_in p j i border hj hi, floor_nat_add_half]
  rw [clampByte_natCast _ (pixChannel_lt _ _)]

lemma lIPC_id (p : Pix) (j i border : Nat) (hj : j < p.w) (hi : i < p.h)
    (hd : p.d = 32) :
    linearInterpolatePixelColor p ((j : ℤ) : ℚ) ((i : ℤ) : ℚ) border =
      getPix p j i := by
  unfold linearInterpolatePixelColor
  rw [interpChannel_id p j i border 0 hj hi, interpChannel_id p j i border 1 hj hi,
    interpChannel_id p j i border 2 hj hi, interpChannel_id p j i border 3 hj hi]
  have hlt : getPix p j i < 2 ^ 32 := by
    have := getPix_lt p j i
    rwa [hd] at this
  exact channels_repack _ hlt

lemma pixProjectiveGray_eq (pixs : Pix) (vc : List ℚ) (grayval : Nat)
    (hd : pixs.d = 8) :
    pixProjectiveGray pixs vc grayval = some ((List.range pixs.h).foldl
      (fun x i => (List.range pixs.w).foldl (fun x2 j => setPix x2 j i
        (linearInterpolatePixelGray pixs (projectiveXformPt vc j i).1
          (projectiveXformPt vc j i).2 grayval)) x)
      (pixSetAllArbitrary (pixCreateTemplate pixs) grayval)) := by
  unfold pixProjectiveGray
  rw [if_neg (by simp [hd])]
  simp only [grayPixel]

lemma pixProjectiveColor_eq (pixs : Pix) (vc : List ℚ) (colorval : Nat)
    (hd : pixs.d = 32) :
    pixProjectiveColor pixs vc colorval = some ((List.range pixs.h).foldl
      (fun x i => (List.range pixs.w).foldl (fun x2 j => setPix x2 j i
        (linearInterpolatePixelColor pixs (projectiveXformPt vc j i).1
          (projectiveXformPt vc j i).2 colorval)) x)
      (pixSetAllArbitrary (pixCreateTemplate pixs) colorval)) := by
  unfold pixProjectiveColor
  rw [if_neg (by simp [hd])]
  simp only [colorPixel]

lemma interpGray_id (pixs : Pix) (grayval : Nat) (hd : pixs.d = 8) :
    ∃ g, pixProjectiveGray pixs idProjVc grayval = some g ∧
      g.w = pixs.w ∧ g.h = pixs.h ∧ g.d = pixs.d ∧
      ∀ a b, a < pixs.w → b < pixs.h → getPix g a b = getPix pixs a b := by
  refine ⟨_, pixProjectiveGray_eq pixs idProjVc grayval hd, ?_, ?_, ?_, ?_⟩
  · exact (setFoldPass_shape pixs.w _ (List.range pixs.h) _).1
  · exact (setFoldPass_shape pixs.w _ (List.range pixs.h) _).2.1
  · exact (setFoldPass_shape pixs.w _ (List.range pixs.h) _).2.2.1
  · intro a b ha hb
    rw [getPix_setFoldPass pixs.w pixs.h pixs.d _ pixs.h (le_refl _)
      (pixSetAllArbitrary (pixCreateTemplate pixs) grayval)
      rfl rfl rfl (by simp [pixSetAllArbitrary, pixCreateTemplate]) a b ha,
      if_pos hb]
    rw [projectiveXformPt_id (a : ℤ) (b : ℤ)]
    show linearInterpolatePixelGray pixs (((a : ℤ) : ℚ)) (((b : ℤ) : ℚ))
      grayval % 2 ^ pixs.d = getPix pixs a b
    rw [lIPG_id pixs a b grayval ha hb hd, hd]
    exact Nat.mod_eq_of_lt (by have := getPix_lt pixs a b; rwa [hd] at this)

lemma interpColor_id (pixs : Pix) (colorval : Nat) (hd : pixs.d = 32) :
    ∃ g, pixProjectiveColor pixs idProjVc colorval = some g ∧
      g.w = pixs.w ∧ g.h = pixs.h ∧ g.d = pixs.d ∧
      ∀ a b, a < pixs.w → b < pixs.h → getPix g a b = getPix pixs a b := by
  refine ⟨_, pixProjectiveColor_eq pixs idProjVc colorval hd, ?_, ?_, ?_, ?_⟩
  · exact (setFoldPass_shape pixs.w _ (List.range pixs.h) _).1
  · exact (setFoldPass_shape pixs.w _ (List.range pixs.h) _).2.1
  · exact (setFoldPass_shape pixs.w _ (List.range pixs.h) _).2.2.1
  · intro a b ha hb
    rw [getPix_setFoldPass pixs.w pixs.h pixs.d _ pixs.h (le_refl _)
      (pixSetAllArbitrary (pixCreateTemplate pixs) colorval)
      rfl rfl rfl (by simp [pixSetAllArbitrary, pixCreateTemplate]) a b ha,
      if_pos hb]
    rw [projectiveXformPt_id (a : ℤ) (b : ℤ)]
    show linearInterpolatePixelColor pixs (((a : ℤ) : ℚ)) (((b : ℤ) : ℚ))
      colorval % 2 ^ pixs.d = getPix pixs a b
    rw [lIPC_id pixs a b colorval ha hb hd, hd]
    exact Nat.mod_eq_of_lt (by have := getPix_lt pixs a b; rwa [hd] at this)

lemma pixProjective_gray8 (pixs : Pix) (vc : List ℚ) (incolor : Nat)
    (hcm : pixs.cmap = none) (hd : pixs.d = 8) :
    pixProjective pixs vc incolor = (pixProjectiveGray pixs vc
      ((if incolor = L_BRING_IN_WHITE then 255 else 0) % 256)).map
        (fun q => (q, pixs)) := by
  have hrm : pixRemoveColormapBasedOnSrc pixs = pixs := by
    unfold pixRemoveColormapBasedOnSrc
    rw [hcm]
  unfold pixProjective
  rw [if_neg (show ¬ pixs.d = 1 by omega), hrm]
  simp [hd, pixClone]

lemma pixProjective_color32 (pixs : Pix) (vc : List ℚ) (incolor : Nat)
    (hcm : pixs.cmap = none) (hd : pixs.d = 32) :
    pixProjective pixs vc incolor = (pixProjectiveColor pixs vc
      (if incolor = L_BRING_IN_WHITE then 0xffffff00 else 0)).map
        (fun q => (q, pixs)) := by
  have hrm : pixRemoveColormapBasedOnSrc pixs = pixs := by
    unfold pixRemoveColormapBasedOnSrc
    rw [hcm]
  unfold pixProjective
  rw [if_neg (show ¬ pixs.d = 1 by omega), hrm]
  simp [hd, pixClone]

set_option maxHeartbeats 2000000 in
/-- C2: on a correspondence set with three collinear points the
elimination subroutine detects the singular system and reports failure,
but getProjectiveXformCoeffs discards that status and returns 0
(success) to its caller, together with the partially eliminated
vector. -/
theorem degenerateStatus_bug :
    (gaussjordan (projMatA collinearPts collinearPts)
      (projVecB collinearPts)).1 = false ∧
    (getProjectiveXformCoeffs collinearPts collinearPts).1 = 0 := by
  constructor
  · norm_num [gaussjordan, gjRun, gjStep, findPiv, normRow, elimRow, projMatA,
      projVecB, ptaGetD, collinearPts, List.range_succ, List.zipWith]
  · rfl

/-- C3: the linear system of getProjectiveXformCoeffs is built exactly
as the spec describes: b is the flattened destination coordinates, each
correspondence contributes an x-row and a y-row with the {x, y, 1}
block, zeros in the opposite block and -x*target / -y*target in
columns 6 and 7, and the returned coefficients are the result of the
in-place elimination of (A | b). -/
theorem systemConstruction_confirmed :
    ∀ x1 y1 x2 y2 x3 y3 x4 y4 u1 v1 u2 v2 u3 v3 u4 v4 : ℚ,
      projVecB [(u1, v1), (u2, v2), (u3, v3), (u4, v4)] =
        [u1, v1, u2, v2, u3, v3, u4, v4] ∧
      projMatA [(x1, y1), (x2, y2), (x3, y3), (x4, y4)]
          [(u1, v1), (u2, v2), (u3, v3), (u4, v4)] =
        [[x1, y1, 1, 0, 0, 0, -x1 * u1, -y1 * u1],
         [0, 0, 0, x1, y1, 1, -x1 * v1, -y1 * v1],
         [x2, y2, 1, 0, 0, 0, -x2 * u2, -y2 * u2],
         [0, 0, 0, x2, y2, 1, -x2 * v2, -y2 * v2],
         [x3, y3, 1, 0, 0, 0, -x3 * u3, -y3 * u3],
         [0, 0, 0, x3, y3, 1, -x3 * v3, -y3 * v3],
         [x4, y4, 1, 0, 0, 0, -x4 * u4, -y4 * u4],
         [0, 0, 0, x4, y4, 1, -x4 * v4, -y4 * v4]] ∧
      getProjectiveXformCoeffs [(x1, y1), (x2, y2), (x3, y3), (x4, y4)]
          [(u1, v1), (u2, v2), (u3, v3), (u4, v4)] =
        (0, (gaussjordan
          (projMatA [(x1, y1), (x2, y2), (x3, y3), (x4, y4)]
            [(u1, v1), (u2, v2), (u3, v3), (u4, v4)])
          (projVecB [(u1, v1), (u2, v2), (u3, v3), (u4, v4)])).2) :=
  fun _ _ _ _ _ _ _ _ _ _ _ _ _ _ _ _ => ⟨rfl, rfl, rfl⟩

/-- C9: the sampled point mapper computes the projective formula with
the factor 1/(c6 x + c7 y + 1) and rounds each coordinate by adding one
half and truncating; the floating variant returns the same expressions
without rounding; and on a non-negative value that rounding is
round-half-away-from-zero (the standard round). -/
theorem pointMapper_confirmed :
    ∀ (vc : List ℚ) (x y : ℤ),
      projectiveXformSampledPt vc x y =
        (ratTrunc (1 / (vc.getD 6 0 * x + vc.getD 7 0 * y + 1) *
            (vc.getD 0 0 * x + vc.getD 1 0 * y + vc.getD 2 0) + 1/2),
         ratTrunc (1 / (vc.getD 6 0 * x + vc.getD 7 0 * y + 1) *
            (vc.getD 3 0 * x + vc.getD 4 0 * y + vc.getD 5 0) + 1/2)) ∧
      projectiveXformPt vc x y =
        (1 / (vc.getD 6 0 * x + vc.getD 7 0 * y + 1) *
            (vc.getD 0 0 * x + vc.getD 1 0 * y + vc.getD 2 0),
         1 / (vc.getD 6 0 * x + vc.getD 7 0 * y + 1) *
            (vc.getD 3 0 * x + vc.getD 4 0 * y + vc.getD 5 0)) ∧
      (∀ q : ℚ, 0 ≤ q → ratTrunc (q + 1/2) = round q) := by
  intro vc x y
  refine ⟨rfl, rfl, ?_⟩
  intro q hq
  rw [round_eq]
  unfold ratTrunc
  rw [if_pos (by linarith)]

/-- C9 witness: the rounding characterization at the value 3/2. -/
theorem pointMapper_witness :
    (0 : ℚ) ≤ 3/2 ∧ ratTrunc ((3 : ℚ)/2 + 1/2) = round ((3 : ℚ)/2) :=
  ⟨by norm_num, (pointMapper_confirmed [] 0 0).2.2 (3/2) (by norm_num)⟩

/-- C10: in the sampled pass on a depth-1 source, a destination pixel
whose in-bounds mapped source bit is 0 keeps the pre-filled canvas
value; in particular with L_BRING_IN_BLACK on a source without
colormap the pre-fill is all-1, so such a destination pixel is 1
(black) in the output. -/
theorem sampledOneBitWrite_confirmed :
    ∀ (pixs : Pix) (vc : List ℚ) (incolor : Nat) (a b : Nat),
      pixs.d = 1 →
      (incolor = L_BRING_IN_WHITE ∨ incolor = L_BRING_IN_BLACK) →
      a < pixs.w → b < pixs.h →
      ¬((projectiveXformSampledPt vc a b).1 < 0 ∨
        (projectiveXformSampledPt vc a b).2 < 0 ∨
        (pixs.w : ℤ) ≤ (projectiveXformSampledPt vc a b).1 ∨
        (pixs.h : ℤ) ≤ (projectiveXformSampledPt vc a b).2) →
      getPix pixs (projectiveXformSampledPt vc a b).1.toNat
        (projectiveXformSampledPt vc a b).2.toNat = 0 →
      (pixProjectiveSampled pixs vc incolor).map (fun pr => getPix pr.1 a b) =
        some (getPix (samplePrefill pixs incolor).1 a b) ∧
      (incolor = L_BRING_IN_BLACK → pixs.cmap = none →
        (pixProjectiveSampled pixs vc incolor).map (fun pr => getPix pr.1 a b) =
          some 1) := by
  intro pixs vc incolor a b hd1 hic ha hb hoob hzero
  have hmain : (pixProjectiveSampled pixs vc incolor).map
      (fun pr => getPix pr.1 a b) =
      some (getPix (samplePrefill pixs incolor).1 a b) := by
    rw [pixProjectiveSampled_getPix pixs vc incolor hic (Or.inl hd1) a b ha hb]
    unfold samplePixelVal
    rw [if_neg hoob, if_pos hd1, if_neg (fun hh => hh hzero)]
  refine ⟨hmain, ?_⟩
  intro hblack hcm
  rw [hmain, getPix_samplePrefill_none pixs incolor hcm a b ha hb,
    if_neg (by rw [hblack]; norm_num [L_BRING_IN_WHITE, L_BRING_IN_BLACK, hd1]),
    hd1]
  norm_num

/-- C10 witness: a one-pixel white depth-1 image under L_BRING_IN_BLACK
keeps the black pre-fill. -/
theorem sampledOneBitWrite_witness :
    (pixProjectiveSampled pixBW idProjVc L_BRING_IN_BLACK).map
      (fun pr => getPix pr.1 0 0) = some 1 := by
  have hmap : projectiveXformSampledPt idProjVc ((0 : Nat) : ℤ)
      ((0 : Nat) : ℤ) = (0, 0) :=
    projectiveXformSampledPt_id _ _ (by simp) (by simp)
  exact (sampledOneBitWrite_confirmed pixBW idProjVc L_BRING_IN_BLACK 0 0 rfl
    (Or.inr rfl) (by norm_num [pixBW]) (by norm_num [pixBW])
    (by rw [hmap]; norm_num [pixBW])
    (by rw [hmap]; norm_num [pixBW, getPix])).2 rfl rfl

set_option maxHeartbeats 1000000 in
/-- C4 (amended).  For every destination pixel of pixProjectiveSampled
at a supported depth: an out-of-bounds mapped source coordinate keeps
the pre-filled border value; in bounds, a source of depth 2, 4, 8 or 32
has its pixel copied, while at depth 1 the source bit is OR-ed in: a
set source bit writes 1 and a clear source bit keeps the pre-filled
value (so under the all-1 pre-fill the claim's unconditional copy
fails, see the counterexample). -/
theorem sampledMainLoop_amended :
    ∀ (pixs : Pix) (vc : List ℚ) (incolor : Nat),
      (incolor = L_BRING_IN_WHITE ∨ incolor = L_BRING_IN_BLACK) →
      (pixs.d = 1 ∨ pixs.d = 2 ∨ pixs.d = 4 ∨ pixs.d = 8 ∨ pixs.d = 32) →
      ∀ a b : Nat, a < pixs.w → b < pixs.h →
        (pixProjectiveSampled pixs vc incolor).map (fun pr => getPix pr.1 a b) =
          some (samplePixelVal pixs vc b a
            (getPix (samplePrefill pixs incolor).1 a b)) := by
  intro pixs vc incolor hic hds a b ha hb
  exact pixProjectiveSampled_getPix pixs vc incolor hic hds a b ha hb

/-- C4 witness: the per-pixel description applied to a concrete 8-bit
image. -/
theorem sampledMainLoop_witness :
    (pixProjectiveSampled pix8 idProjVc L_BRING_IN_WHITE).map
      (fun pr => getPix pr.1 0 0) =
      some (samplePixelVal pix8 idProjVc 0 0
        (getPix (samplePrefill pix8 L_BRING_IN_WHITE).1 0 0)) :=
  sampledMainLoop_amended pix8 idProjVc L_BRING_IN_WHITE (Or.inl rfl)
    (Or.inr (Or.inr (Or.inr (Or.inl rfl)))) 0 0 (by norm_num [pix8])
    (by norm_num [pix8])

/-- C4 counterexample: on a depth-1 source under L_BRING_IN_BLACK, an
in-bounds destination pixel does not receive the source pixel value:
the white source bit 0 is not copied over the black pre-fill. -/
theorem sampledMainLoop_counterexample :
    (pixProjectiveSampled pixBW idProjVc L_BRING_IN_BLACK).map
      (fun pr => getPix pr.1 0 0) ≠ some (getPix pixBW 0 0) := by
  rw [pixProjectiveSampled_getPix pixBW idProjVc L_BRING_IN_BLACK (Or.inr rfl)
    (Or.inl rfl) 0 0 (by norm_num [pixBW]) (by norm_num [pixBW])]
  rw [samplePixelVal_id pixBW 0 0 _ (by norm_num [pixBW]) (by norm_num [pixBW])]
  rw [getPix_samplePrefill_none pixBW L_BRING_IN_BLACK rfl 0 0
    (by norm_num [pixBW]) (by norm_num [pixBW])]
  norm_num [pixBW, getPix, L_BRING_IN_WHITE, L_BRING_IN_BLACK]

/-- C5: the sampled pre-fill polarity.  Without a colormap the canvas is
cleared to all-0 exactly when (depth 1 and white) or (depth above 1 and
black), and set to all-1 bits otherwise; with a colormap, a
black-or-white entry matching the selector is obtained (appended when
absent), the source colormap becomes the extended one, and the canvas
is filled with that entry's index. -/
theorem prefillPolarity_confirmed :
    ∀ (pixs : Pix) (incolor : Nat),
      (incolor = L_BRING_IN_WHITE ∨ incolor = L_BRING_IN_BLACK) →
      0 < pixs.w → 0 < pixs.h →
      (pixs.d = 1 ∨ pixs.d = 2 ∨ pixs.d = 4 ∨ pixs.d = 8 ∨ pixs.d = 32) →
      (pixs.cmap = none →
        (((samplePrefill pixs incolor).1.data =
            List.replicate (pixs.w * pixs.h) 0) ↔
          ((pixs.d = 1 ∧ incolor = L_BRING_IN_WHITE) ∨
            (1 < pixs.d ∧ incolor = L_BRING_IN_BLACK))) ∧
        (¬((pixs.d = 1 ∧ incolor = L_BRING_IN_WHITE) ∨
            (1 < pixs.d ∧ incolor = L_BRING_IN_BLACK)) →
          (samplePrefill pixs incolor).1.data =
            List.replicate (pixs.w * pixs.h) (2 ^ pixs.d - 1))) ∧
      (∀ c : List (Nat × Nat × Nat), pixs.cmap = some c →
        c.length < 2 ^ pixs.d →
        (pixcmapAddBlackOrWhite c
            (if incolor = L_BRING_IN_WHITE then 1 else 0)).1.getD
          (pixcmapAddBlackOrWhite c
            (if incolor = L_BRING_IN_WHITE then 1 else 0)).2 (0, 0, 0) =
          (if incolor = L_BRING_IN_WHITE then (255, 255, 255) else (0, 0, 0)) ∧
        (samplePrefill pixs incolor).2.cmap =
          some (pixcmapAddBlackOrWhite c
            (if incolor = L_BRING_IN_WHITE then 1 else 0)).1 ∧
        (samplePrefill pixs incolor).1.data =
          List.replicate (pixs.w * pixs.h)
            (pixcmapAddBlackOrWhite c
              (if incolor = L_BRING_IN_WHITE then 1 else 0)).2) := by
  intro pixs incolor hic hw hh hds
  constructor
  · intro hc
    have hd1 : 0 < pixs.d := by rcases hds with h | h | h | h | h <;> omega
    have hne : (2 : Nat) ^ pixs.d - 1 ≠ 0 := by
      have : 2 ≤ 2 ^ pixs.d := by
        calc 2 = 2 ^ 1 := by norm_num
          _ ≤ 2 ^ pixs.d := Nat.pow_le_pow_right (by norm_num) hd1
      omega
    unfold samplePrefill
    rw [hc]
    constructor
    · show (if (pixs.d = 1 ∧ incolor = L_BRING_IN_WHITE) ∨
          (1 < pixs.d ∧ incolor = L_BRING_IN_BLACK) then
          (pixClearAll (pixCreateTemplate pixs), pixs)
        else (pixSetAll (pixCreateTemplate pixs), pixs)).1.data =
          List.replicate (pixs.w * pixs.h) 0 ↔ _
      split_ifs with hcond
      · exact iff_of_true rfl hcond
      · exact iff_of_false
          (replicate_ne (pixs.w * pixs.h) (2 ^ pixs.d - 1) 0
            (Nat.mul_pos hw hh) hne) hcond
    · intro hcontra
      show (if (pixs.d = 1 ∧ incolor = L_BRING_IN_WHITE) ∨
          (1 < pixs.d ∧ incolor = L_BRING_IN_BLACK) then
          (pixClearAll (pixCreateTemplate pixs), pixs)
        else (pixSetAll (pixCreateTemplate pixs), pixs)).1.data = _
      rw [if_neg hcontra]
      rfl
  · intro c hc hlen
    have hidx : (pixcmapAddBlackOrWhite c
        (if incolor = L_BRING_IN_WHITE then 1 else 0)).2 < 2 ^ pixs.d :=
      Nat.lt_of_le_of_lt (addBW_idx_le c _) hlen
    refine ⟨?_, (samplePrefill_snd_some pixs incolor c hc).2.2.2.2, ?_⟩
    · have he := addBW_entry c (if incolor = L_BRING_IN_WHITE then 1 else 0)
      by_cases hW : incolor = L_BRING_IN_WHITE
      · simpa [hW] using he
      · simpa [hW] using he
    · unfold samplePrefill
      rw [hc]
      show (pixSetAllArbitrary (pixCreateTemplate pixs)
        (pixcmapAddBlackOrWhite c
          (if incolor = L_BRING_IN_WHITE then 1 else 0)).2).data = _
      simp only [pixSetAllArbitrary, pixCreateTemplate]
      rw [Nat.mod_eq_of_lt hidx]

/-- C5 witness: the colormapped fill at a concrete image whose colormap
lacks the white entry. -/
theorem prefillPolarity_witness :
    (samplePrefill pixCm L_BRING_IN_WHITE).1.data =
      List.replicate (pixCm.w * pixCm.h)
        (pixcmapAddBlackOrWhite [(0, 0, 0)]
          (if L_BRING_IN_WHITE = L_BRING_IN_WHITE then 1 else 0)).2 :=
  ((prefillPolarity_confirmed pixCm L_BRING_IN_WHITE (Or.inl rfl)
    (by norm_num [pixCm]) (by norm_num [pixCm]) (by norm_num [pixCm])).2
    [(0, 0, 0)] rfl (by norm_num [pixCm])).2.2

/-- C6 (amended).  A successful sampled transform never writes the
source raster and keeps its geometry and depth; a source without
colormap is returned entirely unchanged, but a colormapped source has
its colormap replaced by the result of pixcmapAddBlackOrWhite, which
appends a black or white entry whenever the matching entry is absent —
so the source image is not always unchanged (see the
counterexample). -/
theorem sourceUnchanged_amended :
    ∀ (pixs : Pix) (vc : List ℚ) (incolor : Nat) (dst src2 : Pix),
      pixProjectiveSampled pixs vc incolor = some (dst, src2) →
      src2.w = pixs.w ∧ src2.h = pixs.h ∧ src2.d = pixs.d ∧
      src2.data = pixs.data ∧
      (pixs.cmap = none → src2 = pixs) ∧
      (∀ c : List (Nat × Nat × Nat), pixs.cmap = some c →
        src2.cmap = some (pixcmapAddBlackOrWhite c
          (if incolor = L_BRING_IN_WHITE then 1 else 0)).1 ∧
        ((pixcmapAddBlackOrWhite c
            (if incolor = L_BRING_IN_WHITE then 1 else 0)).1 = c ∨
          (pixcmapAddBlackOrWhite c
            (if incolor = L_BRING_IN_WHITE then 1 else 0)).1 =
            c ++ [if incolor = L_BRING_IN_WHITE then (255, 255, 255)
              else (0, 0, 0)])) := by
  intro pixs vc incolor dst src2 hsome
  unfold pixProjectiveSampled at hsome
  split_ifs at hsome
  have hpair : (samplePass pixs vc (samplePrefill pixs incolor).1,
      (samplePrefill pixs incolor).2) = (dst, src2) :=
    Option.some_injective _ hsome
  have hsrc : (samplePrefill pixs incolor).2 = src2 := congrArg Prod.snd hpair
  subst hsrc
  refine ⟨?_, ?_, ?_, ?_, ?_, ?_⟩
  · cases hc : pixs.cmap with
    | none => rw [samplePrefill_snd_none pixs incolor hc]
    | some c => exact (samplePrefill_snd_some pixs incolor c hc).1
  · cases hc : pixs.cmap with
    | none => rw [samplePrefill_snd_none pixs incolor hc]
    | some c => exact (samplePrefill_snd_some pixs incolor c hc).2.1
  · cases hc : pixs.cmap with
    | none => rw [samplePrefill_snd_none pixs incolor hc]
    | some c => exact (samplePrefill_snd_some pixs incolor c hc).2.2.1
  · cases hc : pixs.cmap with
    | none => rw [samplePrefill_snd_none pixs incolor hc]
    | some c => exact (samplePrefill_snd_some pixs incolor c hc).2.2.2.1
  · intro hc
    exact samplePrefill_snd_none pixs incolor hc
  · intro c hc
    refine ⟨(samplePrefill_snd_some pixs incolor c hc).2.2.2.2, ?_⟩
    have he := addBW_ext c (if incolor = L_BRING_IN_WHITE then 1 else 0)
    by_cases hW : incolor = L_BRING_IN_WHITE
    · simpa [hW] using he
    · simpa [hW] using he

/-- C6 witness: a source without colormap comes back unchanged from a
successful sampled transform. -/
theorem sourceUnchanged_witness :
    (samplePass pix8 idProjVc (samplePrefill pix8 L_BRING_IN_WHITE).1,
      (samplePrefill pix8 L_BRING_IN_WHITE).2).2 = pix8 :=
  (sourceUnchanged_amended pix8 idProjVc L_BRING_IN_WHITE _ _
    (pixProjectiveSampled_eq pix8 idProjVc L_BRING_IN_WHITE (Or.inl rfl)
      (Or.inr (Or.inr (Or.inr (Or.inl rfl)))))).2.2.2.2.1 rfl

/-- C6 counterexample: transforming the colormapped source pixCm with a
white border mutates the source, appending a white entry to its
colormap. -/
theorem sourceUnchanged_counterexample :
    (pixProjectiveSampled pixCm idProjVc L_BRING_IN_WHITE).map
      (fun pr => pr.2) ≠ some pixCm := by
  rw [pixProjectiveSampled_eq pixCm idProjVc L_BRING_IN_WHITE (Or.inl rfl)
    (Or.inr (Or.inr (Or.inr (Or.inl rfl))))]
  intro hcontra
  have h2 : (samplePrefill pixCm L_BRING_IN_WHITE).2 = pixCm :=
    Option.some_injective _ hcontra
  have h3 := congrArg Pix.cmap h2
  obtain ⟨_, _, _, _, h5⟩ :=
    samplePrefill_snd_some pixCm L_BRING_IN_WHITE [(0, 0, 0)] rfl
  rw [h5] at h3
  revert h3
  decide

/-- C8: depth-1 sources are delegated by both pixProjectivePta and
pixProjective to the sampled transform, whose result is returned
unchanged; otherwise the image fed to the interpolated pass has its
colormap removed, is promoted to 8 bits when the depth after removal is
below 8, and is left at its depth (in particular 32-bit color stays
32-bit) when not. -/
theorem interpolatedPreprocessing_confirmed :
    ∀ (pixs : Pix) (vc : List ℚ) (ptad ptas : List (ℚ × ℚ)) (incolor : Nat),
      (pixs.d = 1 → pixProjectivePta pixs ptad ptas incolor =
        pixProjectiveSampledPta pixs ptad ptas incolor) ∧
      (pixs.d = 1 → pixProjective pixs vc incolor =
        pixProjectiveSampled pixs vc incolor) ∧
      (pixRemoveColormapBasedOnSrc pixs).cmap = none ∧
      ((pixRemoveColormapBasedOnSrc pixs).d < 8 →
        (pixConvertTo8 (pixRemoveColormapBasedOnSrc pixs)).d = 8 ∧
        (pixConvertTo8 (pixRemoveColormapBasedOnSrc pixs)).cmap = none) ∧
      (¬ (pixRemoveColormapBasedOnSrc pixs).d < 8 →
        (if (pixRemoveColormapBasedOnSrc pixs).d < 8 then
          pixConvertTo8 (pixRemoveColormapBasedOnSrc pixs)
        else pixClone (pixRemoveColormapBasedOnSrc pixs)) =
          pixRemoveColormapBasedOnSrc pixs) := by
  intro pixs vc ptad ptas incolor
  refine ⟨?_, ?_, ?_, ?_, ?_⟩
  · intro hd1
    unfold pixProjectivePta pixProjectiveSampledPta
    by_cases h1 : incolor ≠ L_BRING_IN_WHITE ∧ incolor ≠ L_BRING_IN_BLACK
    · rw [if_pos h1, if_pos h1]
    · rw [if_neg h1, if_neg h1]
      by_cases h2 : ptas.length ≠ 4
      · rw [if_pos h2, if_pos h2]
      · rw [if_neg h2, if_neg h2]
        by_cases h3 : ptad.length ≠ 4
        · rw [if_pos h3, if_pos h3]
        · rw [if_neg h3, if_neg h3, if_pos hd1]
  · intro hd1
    unfold pixProjective
    rw [if_pos hd1]
  · cases hc : pixs.cmap with
    | none =>
      unfold pixRemoveColormapBasedOnSrc
      rw [hc]
      exact hc
    | some c =>
      unfold pixRemoveColormapBasedOnSrc
      rw [hc]
      split
      · simp_all
      · split <;> rfl
  · intro hlt
    unfold pixConvertTo8
    rw [if_neg (by omega)]
    constructor
    · rfl
    · rfl
  · intro hge
    rw [if_neg hge]
    rfl

/-- C8 witness: the depth-1 delegation at a concrete bilevel image. -/
theorem interpolatedPreprocessing_witness :
    pixProjectivePta pixBW [] [] L_BRING_IN_WHITE =
      pixProjectiveSampledPta pixBW [] [] L_BRING_IN_WHITE :=
  (interpolatedPreprocessing_confirmed pixBW idProjVc [] []
    L_BRING_IN_WHITE).1 rfl

/-- C7 (amended).  The border-fill selector is validated by
pixProjectiveSampledPta, pixProjectiveSampled and pixProjectivePta,
which perform no work and return a null result on any other value; but
pixProjective never validates it: only for a depth-1 source does the
delegated sampled transform reject it, while on deeper sources an
invalid selector is silently treated as L_BRING_IN_BLACK (see the
counterexample). -/
theorem invalidSelector_amended :
    ∀ (pixs : Pix) (vc : List ℚ) (ptad ptas : List (ℚ × ℚ)) (incolor : Nat),
      incolor ≠ L_BRING_IN_WHITE → incolor ≠ L_BRING_IN_BLACK →
      pixProjectiveSampledPta pixs ptad ptas incolor = none ∧
      pixProjectiveSampled pixs vc incolor = none ∧
      pixProjectivePta pixs ptad ptas incolor = none ∧
      (pixs.d = 1 → pixProjective pixs vc incolor = none) := by
  intro pixs vc ptad ptas incolor h1 h2
  refine ⟨?_, ?_, ?_, ?_⟩
  · unfold pixProjectiveSampledPta
    rw [if_pos ⟨h1, h2⟩]
  · unfold pixProjectiveSampled
    rw [if_pos ⟨h1, h2⟩]
  · unfold pixProjectivePta
    rw [if_pos ⟨h1, h2⟩]
  · intro hd1
    unfold pixProjective pixProjectiveSampled
    rw [if_pos hd1, if_pos ⟨h1, h2⟩]

/-- C7 witness: the sampled transform rejects the out-of-range selector
value 0. -/
theorem invalidSelector_witness :
    pixProjectiveSampled pix8 idProjVc 0 = none :=
  (invalidSelector_amended pix8 idProjVc [] [] 0
    (by norm_num [L_BRING_IN_WHITE]) (by norm_num [L_BRING_IN_BLACK])).2.1

/-- C7 counterexample: pixProjective performs the full interpolated
transform on an 8-bit source despite the invalid selector value 0,
returning a non-null image (here equal to the source) instead of
rejecting the call. -/
theorem invalidSelector_counterexample :
    pixProjective pix8 idProjVc 0 = some (pix8, pix8) := by
  have hpt : projectiveXformPt idProjVc ((0 : Nat) : ℤ) ((0 : Nat) : ℤ) =
      (0, 0) := by
    unfold projectiveXformPt
    have g0 : idProjVc.getD 0 0 = 1 := rfl
    have g1 : idProjVc.getD 1 0 = 0 := rfl
    have g2 : idProjVc.getD 2 0 = 0 := rfl
    have g3 : idProjVc.getD 3 0 = 0 := rfl
    have g4 : idProjVc.getD 4 0 = 1 := rfl
    have g5 : idProjVc.getD 5 0 = 0 := rfl
    have g6 : idProjVc.getD 6 0 = 0 := rfl
    have g7 : idProjVc.getD 7 0 = 0 := rfl
    rw [g0, g1, g2, g3, g4, g5, g6, g7]
    norm_num
  have hint : linearInterpolatePixelGray pix8 0 0 0 = 200 := by
    unfold linearInterpolatePixelGray cornerVal clampByte
    norm_num [pix8, getPix]
    decide
  have h1 : pixProjectiveGray pix8 idProjVc 0 =
      some (setPix (pixSetAllArbitrary (pixCreateTemplate pix8) 0) 0 0
        (linearInterpolatePixelGray pix8
          (projectiveXformPt idProjVc ((0 : Nat) : ℤ) ((0 : Nat) : ℤ)).1
          (projectiveXformPt idProjVc ((0 : Nat) : ℤ) ((0 : Nat) : ℤ)).2 0)) := by
    unfold pixProjectiveGray
    rw [if_neg (by norm_num [pix8])]
    rfl
  rw [hpt] at h1
  norm_num at h1
  rw [hint] at h1
  have h2 : setPix (pixSetAllArbitrary (pixCreateTemplate pix8) 0) 0 0 200 =
      pix8 := by decide
  rw [h2] at h1
  show (pixProjectiveGray pix8 idProjVc 0).map (fun q => (q, pix8)) =
    some (pix8, pix8)
  rw [h1]
  rfl

set_option maxHeartbeats 2000000 in
/-- C1 (amended).  For a 4-point set P given as both source and
destination, whenever the Gauss-Jordan elimination reports success,
getProjectiveXformCoeffs returns exactly the identity coefficient
vector, and for the corners of a canvas the elimination does succeed
with exactly that vector.  Applying the identity vector with
pixProjectiveSampled reproduces every pixel of the source for depths
2, 4, 8 and 32 with either border selector, and for depth-1 sources
without colormap under L_BRING_IN_WHITE; applying it with the
interpolated pass (pixProjective) reproduces every pixel of an 8- or
32-bit source without colormap with either selector.  (As stated the
claim fails for depth-1 sources under L_BRING_IN_BLACK, and for
colormapped depth-1 sources under L_BRING_IN_WHITE: see the
counterexample.) -/
theorem projectiveIdentity_amended :
    (∀ (P : List (ℚ × ℚ)) (c : List ℚ),
      gaussjordan (projMatA P P) (projVecB P) = (true, c) →
      getProjectiveXformCoeffs P P = (0, idProjVc)) ∧
    gaussjordan (projMatA canvasCorners canvasCorners)
      (projVecB canvasCorners) = (true, idProjVc) ∧
    (∀ (pixs : Pix) (incolor : Nat),
      (incolor = L_BRING_IN_WHITE ∨ incolor = L_BRING_IN_BLACK) →
      ((pixs.d = 2 ∨ pixs.d = 4 ∨ pixs.d = 8 ∨ pixs.d = 32) ∨
        (pixs.d = 1 ∧ incolor = L_BRING_IN_WHITE ∧ pixs.cmap = none)) →
      ∀ a b : Nat, a < pixs.w → b < pixs.h →
        (pixProjectiveSampled pixs idProjVc incolor).map
          (fun pr => getPix pr.1 a b) = some (getPix pixs a b)) ∧
    (∀ (pixs : Pix) (incolor : Nat), pixs.cmap = none →
      (pixs.d = 8 ∨ pixs.d = 32) →
      ∃ pixd, pixProjective pixs idProjVc incolor = some (pixd, pixs) ∧
        pixd.w = pixs.w ∧ pixd.h = pixs.h ∧ pixd.d = pixs.d ∧
        ∀ a b : Nat, a < pixs.w → b < pixs.h →
          getPix pixd a b = getPix pixs a b) := by
  refine ⟨?_, ?_, ?_, ?_⟩
  · intro P c hgj
    have hc := gaussjordan_id P c hgj
    have h2 : (gaussjordan (projMatA P P) (projVecB P)).2 = c :=
      congrArg Prod.snd hgj
    unfold getProjectiveXformCoeffs
    rw [h2, hc]
  · norm_num [gaussjordan, gjRun, gjStep, findPiv, normRow, elimRow, projMatA,
      projVecB, ptaGetD, canvasCorners, idProjVc, List.range_succ,
      List.zipWith]
  · intro pixs incolor hic hcase a b ha hb
    have hds : pixs.d = 1 ∨ pixs.d = 2 ∨ pixs.d = 4 ∨ pixs.d = 8 ∨ pixs.d = 32 := by
      tauto
    rw [pixProjectiveSampled_getPix pixs idProjVc incolor hic hds a b ha hb]
    rw [samplePixelVal_id pixs a b _ ha hb]
    rcases hcase with hd | ⟨hd1, hw1, hcm⟩
    · rw [if_neg (by rcases hd with h | h | h | h <;> omega)]
    · rw [if_pos hd1]
      by_cases hbit : getPix pixs a b ≠ 0
      · rw [if_pos hbit]
        have hlt : getPix pixs a b < 2 := by
          have := getPix_lt pixs a b
          rwa [hd1, pow_one] at this
        have hone : getPix pixs a b = 1 := by omega
        rw [hone]
      · rw [if_neg hbit]
        push_neg at hbit
        rw [getPix_samplePrefill_none pixs incolor hcm a b ha hb,
          if_pos (Or.inl ⟨hd1, hw1⟩), hbit]
  · intro pixs incolor hcm hd8
    rcases hd8 with hd | hd
    · obtain ⟨g, hg, hw, hh, hgd, hpix⟩ := interpGray_id pixs
        ((if incolor = L_BRING_IN_WHITE then 255 else 0) % 256) hd
      refine ⟨g, ?_, hw, hh, hgd, hpix⟩
      rw [pixProjective_gray8 pixs idProjVc incolor hcm hd, hg]
      rfl
    · obtain ⟨g, hg, hw, hh, hgd, hpix⟩ := interpColor_id pixs
        (if incolor = L_BRING_IN_WHITE then 0xffffff00 else 0) hd
      refine ⟨g, ?_, hw, hh, hgd, hpix⟩
      rw [pixProjective_color32 pixs idProjVc incolor hcm hd, hg]
      rfl

/-- C1 witness: the amended statement exercised at concrete inputs: the
canvas-corner point set (whose elimination succeeds, so the coefficient
identity applies) and a concrete 8-bit image under both the sampled and
the interpolated pass. -/
theorem projectiveIdentity_witness :
    getProjectiveXformCoeffs canvasCorners canvasCorners = (0, idProjVc) ∧
    (pixProjectiveSampled pix8 idProjVc L_BRING_IN_WHITE).map
      (fun pr => getPix pr.1 0 0) = some (getPix pix8 0 0) ∧
    (∃ pixd, pixProjective pix8 idProjVc L_BRING_IN_WHITE =
        some (pixd, pix8) ∧
      pixd.w = pix8.w ∧ pixd.h = pix8.h ∧ pixd.d = pix8.d ∧
      ∀ a b : Nat, a < pix8.w → b < pix8.h →
        getPix pixd a b = getPix pix8 a b) :=
  ⟨projectiveIdentity_amended.1 canvasCorners idProjVc
      projectiveIdentity_amended.2.1,
    projectiveIdentity_amended.2.2.1 pix8 L_BRING_IN_WHITE (Or.inl rfl)
      (Or.inl (Or.inr (Or.inr (Or.inl rfl)))) 0 0 (by norm_num [pix8])
      (by norm_num [pix8]),
    projectiveIdentity_amended.2.2.2 pix8 L_BRING_IN_WHITE rfl
      (Or.inl rfl)⟩

/-- C1 counterexample: the identity transform of a depth-1 one-pixel
white image with L_BRING_IN_BLACK is not the source image (the single
destination bit stays at the all-1 pre-fill), and on a colormapped
depth-1 one-pixel black image with L_BRING_IN_WHITE the destination
pixel holds the colormap index of white (1), not the source value 0. -/
theorem projectiveIdentity_counterexample :
    (pixProjectiveSampled pixBW idProjVc L_BRING_IN_BLACK).map
      (fun pr => pr.1) ≠ some pixBW ∧
    (pixProjectiveSampled pixBWCm idProjVc L_BRING_IN_WHITE).map
      (fun pr => getPix pr.1 0 0) ≠ some (getPix pixBWCm 0 0) := by
  constructor
  · intro hcontra
    obtain ⟨pr, hpr, hfst⟩ := Option.map_eq_some'.mp hcontra
    have h1 := pixProjectiveSampled_getPix pixBW idProjVc L_BRING_IN_BLACK
      (Or.inr rfl) (Or.inl rfl) 0 0 (by norm_num [pixBW]) (by norm_num [pixBW])
    rw [hpr] at h1
    have h2 : getPix pr.1 0 0 = samplePixelVal pixBW idProjVc 0 0
        (getPix (samplePrefill pixBW L_BRING_IN_BLACK).1 0 0) :=
      Option.some_injective _ h1
    rw [hfst] at h2
    rw [samplePixelVal_id pixBW 0 0 _ (by norm_num [pixBW]) (by norm_num [pixBW])]
      at h2
    rw [getPix_samplePrefill_none pixBW L_BRING_IN_BLACK rfl 0 0
      (by norm_num [pixBW]) (by norm_num [pixBW])] at h2
    norm_num [pixBW, getPix, L_BRING_IN_WHITE, L_BRING_IN_BLACK] at h2
  · intro hcontra
    have h1 := pixProjectiveSampled_getPix pixBWCm idProjVc L_BRING_IN_WHITE
      (Or.inl rfl) (Or.inl rfl) 0 0 (by norm_num [pixBWCm])
      (by norm_num [pixBWCm])
    rw [hcontra] at h1
    have h2 : getPix pixBWCm 0 0 = samplePixelVal pixBWCm idProjVc 0 0
        (getPix (samplePrefill pixBWCm L_BRING_IN_WHITE).1 0 0) :=
      Option.some_injective _ h1
    rw [samplePixelVal_id pixBWCm 0 0 _ (by norm_num [pixBWCm])
      (by norm_num [pixBWCm])] at h2
    rw [getPix_samplePrefill_some pixBWCm L_BRING_IN_WHITE
      [(0, 0, 0), (255, 255, 255)] rfl 0 0 (by norm_num [pixBWCm])
      (by norm_num [pixBWCm])] at h2
    exact absurd h2 (by decide)
